import Mathlib

/-!
Verification of the oarkflow/email routing, deduplication, scheduling and
batch-allocation logic.  The Go sources are shallowly embedded: pure Go
functions become Lean functions on `String`/`Int`/`List`; effectful Go code
(file-backed stores, the network transports, `time.Now`, `math/rand`,
`crypto/rand`) is made explicit either as state records threaded through the
functions or as environment records of functions.  `time.Duration` values are
`Int` nanoseconds, Go `int`/`int64` are `Int` (with explicit wrapping where
overflow is possible), Go maps with `string` keys are association lists.
Strings are modelled at the character level; `strings.ToLower`,
`strings.TrimSpace`, `strings.EqualFold` and `unicode.IsSpace` are modelled
on their ASCII behaviour, which is the behaviour every claim exercises.
-/

/-! ## Go string primitives -/

/-- Model of Go `unicode.IsSpace` (ASCII whitespace). -/
def goIsSpace (c : Char) : Bool :=
  c = ' ' || c = '\t' || c = '\n' || c = '\x0d' || c = '\x0b' || c = '\x0c'

/-- Model of Go `strings.ToLower` on a single character (ASCII case). -/
def goCharLower (c : Char) : Char :=
  if 'A' ≤ c ∧ c ≤ 'Z' then Char.ofNat (c.toNat + 32) else c

/-- Model of Go `strings.ToLower` (ASCII case). -/
def goToLower (s : String) : String := ⟨s.data.map goCharLower⟩

/-- Model of Go `strings.TrimSpace`. -/
def goTrimSpace (s : String) : String :=
  ⟨((s.data.dropWhile goIsSpace).reverse.dropWhile goIsSpace).reverse⟩

/-- The normalization `strings.ToLower(strings.TrimSpace(·))` that the routing
code applies to provider names. -/
def goNorm (s : String) : String := goToLower (goTrimSpace s)

/-- Model of Go `strings.EqualFold` (ASCII case-insensitive equality). -/
def goEqualFold (a b : String) : Bool := goToLower a == goToLower b

/-- Model of Go `strings.Join`. -/
def goJoin (xs : List String) (sep : String) : String :=
  match xs with
  | [] => ""
  | x :: rest => rest.foldl (fun acc y => acc ++ sep ++ y) x

/-! ## Association-list model of Go maps with string keys -/

/-- Lookup in a Go map modelled as an association list (`m[k]` with `ok`). -/
def mapLookup {α : Type} (m : List (String × α)) (k : String) : Option α :=
  match m.find? (fun e => e.1 = k) with
  | some e => some e.2
  | none => none

/-- `m[k] = v` on an association list: replace the binding if present,
append it otherwise. -/
def mapSet {α : Type} (m : List (String × α)) (k : String) (v : α) :
    List (String × α) :=
  match m with
  | [] => [(k, v)]
  | e :: rest => if e.1 = k then (k, v) :: rest else e :: mapSet rest k v

/-! ## Data model (structs from the Go sources, projected onto the fields the
verified functions read) -/

/-- `ProviderSetting` (defaults.go).  `Cost` is a Go `float64` used only in
comparisons, modelled as `Rat`. -/
structure ProviderSetting where
  Capacity : Int := 0
  Cost : Rat := 0
deriving Repr, DecidableEq

/-- `ProviderRoute` (the routing rule struct).  Durations are nanoseconds. -/
structure ProviderRoute where
  ToDomains : List String := []
  FromDomains : List String := []
  SubjectRegex : String := ""
  ProviderPriority : List String := []
  Provider : String := ""
  HourlyLimit : Int := 0
  DailyLimit : Int := 0
  WeeklyLimit : Int := 0
  MonthlyLimit : Int := 0
  SelectionWindow : Int := 0
  RecencyHalfLife : Int := 0
  ProviderWeights : List (String × Rat) := []
  ProviderCapacities : List (String × Int) := []
  ProviderCostOverrides : List (String × Rat) := []
deriving Repr, DecidableEq

/-- Dynamic values stored in `map[string]any` metadata (JSON-decoded Go
values: strings, bools and numbers; JSON numbers decode to `float64`,
modelled as `Int` since the code only compares them with zero or converts
them to whole-second durations). -/
inductive GoVal where
  | str (s : String)
  | boolv (b : Bool)
  | num (n : Int)
  | arr (xs : List GoVal)
  | obj (fields : List (String × GoVal))

/-- `EmailConfig`, projected onto the fields read by the verified functions
(the transport/credential fields are untouched by routing, deduplication,
scheduling and allocation). -/
structure EmailConfig where
  From : String := ""
  To : List String := []
  Subject : String := ""
  Body : String := ""
  TextBody : String := ""
  HTMLBody : String := ""
  Provider : String := ""
  Transport : String := ""
  Host : String := ""
  Port : Int := 0
  AdditionalData : List (String × GoVal) := []
  ScheduleMode : String := ""
  RetryCount : Int := 0
  RetryDelay : Int := 0
  MaxRetryDelay : Int := 0
  ProviderPriority : List String := []
  ProviderRoutes : List ProviderRoute := []
  DryRun : Bool := false

/-- `SendContext` (main.go / part_001). -/
structure SendContext where
  JobID : String := ""
  Step : String := ""
  StepIndex : Int := 0
  PrevJobID : String := ""
  RequireLastSuccess : Bool := false
  SkipAhead : Bool := false
deriving Repr, DecidableEq

/-- `SendLogEntry` (sendlog.go); `Timestamp` is UTC nanoseconds. -/
structure SendLogEntry where
  Timestamp : Int := 0
  JobID : String := ""
  Step : String := ""
  Attempt : Int := 0
  Provider : String := ""
  Success : Bool := false
  ErrMsg : String := ""
  Recipients : List String := []
deriving Repr, DecidableEq

/-! ## normalizeProviderList (part_001) -/

/-- The first loop of `normalizeProviderList`: normalize each name, dropping
empties and duplicates (the Go `seen` set always holds exactly the elements
of `out`, so membership in `out` models it). -/
def normCollect : List String → List String → List String
  | [], out => out
  | p :: rest, out =>
    let s := goNorm p
    if s = "" ∨ out.contains s then normCollect rest out
    else normCollect rest (out ++ [s])

/-- `normalizeProviderList` (part_001): normalize names, deduplicate, append
the fallback provider if needed, and fall back to `[fallback]` when empty. -/
def normalizeProviderList (list : List String) (fallback : String) : List String :=
  let out := normCollect list []
  let out :=
    if fallback ≠ "" then
      let s := goNorm fallback
      if s ≠ "" ∧ ¬ out.contains s then out ++ [s] else out
    else out
  if out = [] then
    if fallback ≠ "" then [goNorm fallback] else [fallback]
  else out

example : normalizeProviderList ["  SendGrid", "sendgrid", "", "SES"] "ses" =
    ["sendgrid", "ses"] := by decide
example : normalizeProviderList ["A"] "" = ["a"] := by decide
example : normalizeProviderList [] "" = [""] := by decide
example : normalizeProviderList ["  "] " " = [""] := by decide

/-! ## Domain extraction and route matching (part_001) -/

/-- Characters after the last `@` of the list (`strings.LastIndex(addr, "@")`);
`none` when there is no `@`. -/
def afterLastAt : List Char → Option (List Char)
  | [] => none
  | c :: rest =>
    match afterLastAt rest with
    | some t => some t
    | none => if c = '@' then some rest else none

/-- `extractDomain` (part_001): lowercased, trimmed text after the last `@`;
empty when there is no `@` or the `@` is the final character. -/
def extractDomain (addr : String) : String :=
  let a := goTrimSpace addr
  match afterLastAt a.data with
  | some rest => if rest = [] then "" else goToLower (goTrimSpace ⟨rest⟩)
  | none => ""

example : extractDomain " User@Example.COM " = "example.com" := by decide
example : extractDomain "a@b@C.d" = "c.d" := by decide
example : extractDomain "nodomain" = "" := by decide
example : extractDomain "trailing@" = "" := by decide

/-- The environment of effectful/external functions the routing code calls:
`parseAddress` abstracts `net/mail.ParseAddress` (`none` = parse error),
`regexCompile` abstracts `regexp.Compile` (`none` = compile error, otherwise
the match predicate), `countSuccesses` abstracts `countSuccessesSince`
(reads the send-log file; `Except.error` = read error), `usageSort`
abstracts `sortProvidersByUsage` (reads the send-log file; arguments are
providers, toDomains, window, weights, recencyHalfLife, capacities, costs),
and `now` is `time.Now().UTC()` in nanoseconds. -/
structure RouteEnv where
  parseAddress : String → Option (String × String)
  regexCompile : String → Option (String → Bool)
  countSuccesses : List String → Int → List String → Except Unit Int
  usageSort : List String → List String → Int → List (String × Rat) → Int →
    List (String × Int) → List (String × Rat) → List String
  now : Int

/-- `splitAddress` (main.go): display name and address of a recipient
string. -/
def splitAddress (env : RouteEnv) (value : String) : String × String :=
  if goTrimSpace value = "" then ("", "")
  else
    match env.parseAddress value with
    | none => ("", goTrimSpace value)
    | some (name, addr) => (name, addr)

/-- `routeMatches` (part_001): a route with no condition never matches;
otherwise match on recipient domains, sender domain, or subject regex. -/
def routeMatches (env : RouteEnv) (cfg : EmailConfig) (r : ProviderRoute) : Bool :=
  if r.ToDomains = [] ∧ r.FromDomains = [] ∧ r.SubjectRegex = "" then false
  else
    (!r.ToDomains.isEmpty &&
      cfg.To.any (fun rcpt =>
        let d := extractDomain (splitAddress env rcpt).2
        r.ToDomains.any (fun t => goEqualFold (goTrimSpace t) d))) ||
    (!r.FromDomains.isEmpty &&
      (let d := extractDomain (splitAddress env cfg.From).2
       r.FromDomains.any (fun f => goEqualFold (goTrimSpace f) d))) ||
    (!(r.SubjectRegex = "") &&
      (match env.regexCompile r.SubjectRegex with
       | some re => re cfg.Subject
       | none => false))

/-- `findFirstMatchingRoute` (part_001). -/
def findFirstMatchingRoute (env : RouteEnv) (cfg : EmailConfig) : Option ProviderRoute :=
  cfg.ProviderRoutes.find? (fun r => routeMatches env cfg r)

/-- Nanoseconds per hour (`time.Hour`). -/
def nsPerHour : Int := 3600000000000

/-- One limit check of `routeWithinLimits`: the Go
`cnt, err := countSuccessesSince(...); err == nil && cnt >= limit`. -/
def limitExceeded (env : RouteEnv) (providers : List String)
    (toDomains : List String) (since : Int) (limit : Int) : Bool :=
  match env.countSuccesses providers since toDomains with
  | .ok cnt => decide (limit ≤ cnt)
  | .error _ => false

/-- The provider list `routeWithinLimits` counts over: the route's priority
list, or the single route provider when the list is empty. -/
def routeProviders (r : ProviderRoute) : List String :=
  if r.ProviderPriority.isEmpty && !(r.Provider = "") then [r.Provider]
  else r.ProviderPriority

/-- `routeWithinLimits` (part_001): the route still has capacity unless one
of the four configured (positive) limits is already met by the successful
send counts in its window.  A count read error skips that check. -/
def routeWithinLimits (env : RouteEnv) (r : ProviderRoute) : Bool :=
  let providers := routeProviders r
  let now := env.now
  if 0 < r.HourlyLimit ∧
      limitExceeded env providers r.ToDomains (now - nsPerHour) r.HourlyLimit = true then
    false
  else if 0 < r.DailyLimit ∧
      limitExceeded env providers r.ToDomains (now - 24 * nsPerHour) r.DailyLimit = true then
    false
  else if 0 < r.WeeklyLimit ∧
      limitExceeded env providers r.ToDomains (now - 7 * 24 * nsPerHour) r.WeeklyLimit = true then
    false
  else if 0 < r.MonthlyLimit ∧
      limitExceeded env providers r.ToDomains (now - 30 * 24 * nsPerHour) r.MonthlyLimit = true then
    false
  else true

/-- The route loop of `resolveProviders`: first matching route that is
within limits yields its provider list; exhausted routes are skipped. -/
def resolveFromRoutes (env : RouteEnv) (cfg : EmailConfig) :
    List ProviderRoute → List String
  | [] => normalizeProviderList [] cfg.Provider
  | r :: rest =>
    if routeMatches env cfg r then
      if ¬ routeWithinLimits env r then resolveFromRoutes env cfg rest
      else
        let list :=
          if ¬ r.ProviderPriority.isEmpty then r.ProviderPriority
          else if r.Provider ≠ "" then [r.Provider]
          else []
        if 1 < list.length then
          normalizeProviderList
            (env.usageSort list r.ToDomains r.SelectionWindow r.ProviderWeights
              r.RecencyHalfLife r.ProviderCapacities r.ProviderCostOverrides)
            cfg.Provider
        else normalizeProviderList list cfg.Provider
    else resolveFromRoutes env cfg rest

/-- `resolveProviders` (part_001): explicit priority first (reordered by
usage when a matching route carries selection metadata), then the first
matching route within limits, then the fallback provider. -/
def resolveProviders (env : RouteEnv) (cfg : EmailConfig) : List String :=
  if ¬ cfg.ProviderPriority.isEmpty then
    match findFirstMatchingRoute env cfg with
    | some r =>
      if ¬ r.ProviderWeights.isEmpty ∨ ¬ r.ProviderCapacities.isEmpty ∨
          ¬ r.ProviderCostOverrides.isEmpty ∨ 0 < r.SelectionWindow ∨
          0 < r.RecencyHalfLife then
        let list := cfg.ProviderPriority
        if 1 < list.length then
          normalizeProviderList
            (env.usageSort list r.ToDomains r.SelectionWindow r.ProviderWeights
              r.RecencyHalfLife r.ProviderCapacities r.ProviderCostOverrides)
            cfg.Provider
        else normalizeProviderList list cfg.Provider
      else
        let list := cfg.ProviderPriority
        if 1 < list.length then
          normalizeProviderList (env.usageSort list [] 0 [] 0 [] []) cfg.Provider
        else normalizeProviderList list cfg.Provider
    | none =>
      let list := cfg.ProviderPriority
      if 1 < list.length then
        normalizeProviderList (env.usageSort list [] 0 [] 0 [] []) cfg.Provider
      else normalizeProviderList list cfg.Provider
  else resolveFromRoutes env cfg cfg.ProviderRoutes

/-! ## Send-log counting (sendlog.go) -/

/-- Whether one send-log entry is counted by `countSuccessesFromReader`:
successful, not before `since`, provider in the (normalized) filter when one
is given, and some recipient with a non-empty domain in `toDomains` when a
domain filter is given. -/
def entryCounted (providers : List String) (since : Int) (toDomains : List String)
    (e : SendLogEntry) : Bool :=
  e.Success &&
  !(e.Timestamp < since) &&
  (providers.isEmpty || (providers.map goNorm).contains (goNorm e.Provider)) &&
  (toDomains.isEmpty ||
    e.Recipients.any (fun rcpt =>
      let d := extractDomain rcpt
      !(d = "") && toDomains.any (fun td => goEqualFold (goTrimSpace td) d)))

/-- `countSuccessesFromReader` (sendlog.go) over an already-decoded entry
list (lines that fail to decode are skipped by the Go scanner and are not
part of the list). -/
def countSuccessesFromReader (entries : List SendLogEntry) (providers : List String)
    (since : Int) (toDomains : List String) : Int :=
  match entries with
  | [] => 0
  | e :: rest =>
    (if entryCounted providers since toDomains e then 1 else 0) +
      countSuccessesFromReader rest providers since toDomains

/-- A `RouteEnv` whose send log is the in-memory list `log`
(`countSuccessesSince` over an intact file; a missing file is the empty
list).  `parseAddress` models `mail.ParseAddress` restricted to plain
`local@domain` strings (no display name, which is what every concrete input
here uses); `regexCompile` matches by substring containment as a stand-in
match predicate. -/
def envFromLog (log : List SendLogEntry) (now : Int) : RouteEnv where
  parseAddress := fun s => some ("", s)
  regexCompile := fun pat => some (fun s => pat == s)
  countSuccesses := fun providers since toDomains =>
    .ok (countSuccessesFromReader log providers since toDomains)
  usageSort := fun providers _ _ _ _ _ _ => providers
  now := now

/-! ## Dedup key (part_001 / main.go) -/

/-- The step label used by `dedupKeyFromConfig`: the trimmed context step
when non-empty, else the string under `AdditionalData["step"]`. -/
def dedupStep (cfg : EmailConfig) (ctx : Option SendContext) : String :=
  match ctx with
  | some c =>
    if goTrimSpace c.Step ≠ "" then goTrimSpace c.Step
    else
      match mapLookup cfg.AdditionalData "step" with
      | some (.str s) => goTrimSpace s
      | _ => ""
  | none =>
    match mapLookup cfg.AdditionalData "step" with
    | some (.str s) => goTrimSpace s
    | _ => ""

/-- `dedupKeyFromConfig` (part_001 and, identically, main.go); `sha`
abstracts `sha256Hex`. -/
def dedupKeyFromConfig (sha : String → String) (cfg : EmailConfig)
    (ctx : Option SendContext) : String :=
  let mode := goToLower (goTrimSpace cfg.ScheduleMode)
  if mode = "" ∨ mode = "repeat" then ""
  else
    let step := dedupStep cfg ctx
    let recipients := goToLower (goJoin cfg.To ",")
    let subjectHash := sha (goToLower (goTrimSpace cfg.Subject))
    let bodyHash := sha (goToLower (goTrimSpace (cfg.Body ++ cfg.TextBody ++ cfg.HTMLBody)))
    recipients ++ "|" ++ goToLower step ++ "|" ++ subjectHash ++ "|" ++ bodyHash

example :
    dedupKeyFromConfig (fun s => s)
      { ScheduleMode := "once", To := ["A@b", "c@D"], Subject := " Hi ", Body := "X" }
      (some { Step := "s1" }) = "a@b,c@d|s1|hi|x" := by decide
example :
    dedupKeyFromConfig (fun s => s)
      { ScheduleMode := "Repeat", To := ["a@b"] } none = "" := by decide

/-! ## sendEmail (part_001 / main.go) as an explicit state machine -/

/-- Errors returned by `sendEmail`: the sentinel `errDeduplicated` or an
ordinary error message. -/
inductive SendErr where
  | deduplicated
  | msg (s : String)
deriving Repr, DecidableEq

/-- The file-backed state `sendEmail` reads and writes: the dedup store
(`send_dedup.json` key set), the send log (`send_log` JSONL), and a trace of
transport calls (which provider was contacted on which attempt) making
"provider was contacted" observable. -/
structure SendState where
  dedup : List String := []
  sendLog : List SendLogEntry := []
  attempts : List (String × Int) := []
deriving Repr, DecidableEq

/-- The environment of `sendEmail`: `prepare` abstracts the placeholder and
body resolution of `prepareSendConfig`, `finalizeRest` abstracts
`applyProviderDefaults`/`applyHTTPProfile`/`finalizeConfig` except for the
retry-count clamp (kept concrete below), `sha` abstracts `sha256Hex`, and
the two transports return the attempt outcome (`none` = delivered). -/
structure SendEnv where
  route : RouteEnv
  sha : String → String
  prepare : EmailConfig → Except String EmailConfig
  finalizeRest : EmailConfig → Except String EmailConfig
  sendViaHTTP : EmailConfig → Int → Option String
  sendViaSMTP : EmailConfig → Int → Option String
  now : Int

/-- `finalizeConfig` (main.go): the abstracted bulk, then the concrete
`if cfg.RetryCount <= 0 { cfg.RetryCount = 1 }` executed just before its
successful return. -/
def finalizeConfig (env : SendEnv) (cfg : EmailConfig) : Except String EmailConfig :=
  match env.finalizeRest cfg with
  | .error e => .error e
  | .ok c => .ok { c with RetryCount := if c.RetryCount ≤ 0 then 1 else c.RetryCount }

/-- `EmailConfig.ProviderOrHost` (main.go). -/
def ProviderOrHost (cfg : EmailConfig) : String :=
  if cfg.Provider ≠ "" then cfg.Provider else cfg.Host

/-- `recordSendAttempt` (sendlog.go): append one entry to the send log. -/
def recordSendAttempt (env : SendEnv) (ctx : Option SendContext) (cfg : EmailConfig)
    (attempt : Int) (err : Option String) (st : SendState) : SendState :=
  let entry : SendLogEntry :=
    { Timestamp := env.now
      Attempt := attempt
      Provider := ProviderOrHost cfg
      Success := err.isNone
      Recipients := cfg.To
      JobID := match ctx with | some c => c.JobID | none => ""
      Step := match ctx with | some c => c.Step | none => ""
      ErrMsg := match err with | some e => e | none => "" }
  { st with sendLog := st.sendLog ++ [entry] }

/-- `dedupKeyExists` (part_005) against the in-memory view of the store. -/
def dedupKeyExists (st : SendState) (key : String) : Bool :=
  if key = "" then false else st.dedup.contains key

/-- `markDedupKey` (part_005). -/
def markDedupKey (key : String) (st : SendState) : SendState :=
  if key = "" then st
  else if st.dedup.contains key then st
  else { st with dedup := st.dedup ++ [key] }

/-- One transport call of the retry loop (`sendViaHTTP`/`sendViaSMTP`
according to the finalized transport). -/
def attemptOutcome (env : SendEnv) (fcfg : EmailConfig) (attempt : Int) :
    Option String :=
  if fcfg.Transport = "http" then env.sendViaHTTP fcfg attempt
  else env.sendViaSMTP fcfg attempt

/-- The state after one transport call: the contact is traced and
`recordSendAttempt` appends its log entry. -/
def afterAttempt (env : SendEnv) (ctx : Option SendContext) (fcfg : EmailConfig)
    (attempt : Int) (err : Option String) (st : SendState) : SendState :=
  recordSendAttempt env ctx fcfg attempt err
    { st with attempts := st.attempts ++ [(ProviderOrHost fcfg, attempt)] }

/-- The retry loop of `sendEmail` for one provider: attempts are numbered
from `attempt` with `fuel` of them left (`fuel` starts at `RetryCount`).
Returns (delivered?, last error of this provider, state). -/
def tryAttempts (env : SendEnv) (ctx : Option SendContext) (fcfg : EmailConfig)
    (key : String) : Int → Nat → SendState → Bool × Option String × SendState
  | _, 0, st => (false, none, st)
  | attempt, fuel + 1, st =>
    let err := attemptOutcome env fcfg attempt
    let st := afterAttempt env ctx fcfg attempt err st
    match err with
    | none => (true, none, markDedupKey key st)
    | some e =>
      match tryAttempts env ctx fcfg key (attempt + 1) fuel st with
      | (true, lastE, st') => (true, lastE, st')
      | (false, none, st') => (false, some e, st')
      | (false, some e', st') => (false, some e', st')

/-- The provider loop of `sendEmail`: try each resolved provider in order;
a `nil` `lastErr` at the end of the loop is a `nil` return. -/
def providerLoop (env : SendEnv) (ctx : Option SendContext) (pcfg : EmailConfig)
    (key : String) : List String → Option String → SendState →
    Except SendErr Unit × SendState
  | [], lastErr, st =>
    (match lastErr with | none => .ok () | some e => .error (.msg e), st)
  | prov :: rest, lastErr, st =>
    let cfgCopy := { pcfg with Provider := prov }
    match finalizeConfig env cfgCopy with
    | .error e => providerLoop env ctx pcfg key rest (some e) st
    | .ok fcfg =>
      match tryAttempts env ctx fcfg key 1 fcfg.RetryCount.toNat st with
      | (true, _, st') => (.ok (), st')
      | (false, e?, st') =>
        providerLoop env ctx pcfg key rest
          (match e? with | some e => some e | none => lastErr) st'

/-- `sendEmail` (part_001 / main.go): prepare, dedup-check, resolve
providers, dry-run short-circuit, then the provider/retry loops. -/
def sendEmail (env : SendEnv) (cfg : EmailConfig) (ctx : Option SendContext)
    (st : SendState) : Except SendErr Unit × SendState :=
  match env.prepare cfg with
  | .error e => (.error (.msg e), st)
  | .ok pcfg =>
    let dedupKey := dedupKeyFromConfig env.sha pcfg ctx
    if dedupKey ≠ "" ∧ dedupKeyExists st dedupKey then (.error .deduplicated, st)
    else
      let providers := resolveProviders env.route pcfg
      if pcfg.DryRun then (.ok (), st)
      else providerLoop env ctx pcfg dedupKey providers none st

/-! ## jitterBackoff (part_001) -/

/-- Two-complement wrap of an `Int` to a signed 64-bit value (Go `int64`
overflow). -/
def wrap64 (x : Int) : Int := (x + 2 ^ 63) % 2 ^ 64 - 2 ^ 63

/-- Nanoseconds per second (`time.Second`). -/
def nsPerSecond : Int := 1000000000

/-- `jitterBackoff` (part_001).  `rand` abstracts `mrand.Int63n`: on a
positive argument `n` it returns a value in `[0, n)`.  `attempt` is assumed
positive (a negative shift panics in Go); the shift and the product wrap as
Go `int64` arithmetic does. -/
def jitterBackoff (attempt base maxDelay : Int) (rand : Int → Int) : Int :=
  let base := if base ≤ 0 then 2 * nsPerSecond else base
  let factor := wrap64 (2 ^ (attempt - 1).toNat)
  let upper := wrap64 (factor * base)
  let upper := if 0 < maxDelay ∧ maxDelay < upper then maxDelay else upper
  if upper ≤ 0 then 0 else rand (upper + 1)

example : jitterBackoff 1 1 0 (fun n => n - 1) = 1 := by decide
set_option maxRecDepth 4000 in
example : jitterBackoff 3 (-5) (3 * nsPerSecond) (fun n => n - 1) = 3 * nsPerSecond := by
  decide
set_option maxRecDepth 4000 in
example : jitterBackoff 80 7 0 (fun n => n - 1) = 0 := by decide

/-! ## Scheduler and workflows (scheduler.go, workflows.go, sendlog.go) -/

/-- `JobResult` (sendlog.go). -/
inductive JobResult where
  | success
  | failed
  | skipped
  | blocked
deriving Repr, DecidableEq

/-- `ScheduledEmail` (scheduler.go); `RunAt` is UTC nanoseconds. -/
structure ScheduledEmail where
  ID : String := ""
  Config : EmailConfig := {}
  RunAt : Int := 0
  Attempts : Int := 0
  Meta : List (String × GoVal) := []

/-- The state the scheduler reads and writes: the persistent job store, the
job-result store (`job_results` file), the send-side state, and a trace of
the jobs for which the dispatcher (`sendEmail`) was invoked. -/
structure SchedulerState where
  jobs : List ScheduledEmail := []
  counter : Nat := 0
  results : List (String × JobResult) := []
  send : SendState := {}
  dispatched : List String := []

/-- The scheduler environment: `genId` abstracts `randomBoundary("job")`
(one fresh identifier per `Schedule` call, fed by a call counter),
`parseTime` abstracts `time.Parse(time.RFC3339, ·)`, `now` is `time.Now()`
in nanoseconds, and `send` is the `sendEmail` environment. -/
structure SchedEnv where
  genId : Nat → String
  parseTime : String → Option Int
  now : Int
  send : SendEnv

/-- `normalizeBool` (main.go). -/
def normalizeBool : GoVal → Bool
  | .boolv b => b
  | .str s =>
    let lower := goToLower (goTrimSpace s)
    lower = "true" || lower = "yes" || lower = "1"
  | .num n => !(n = 0)
  | _ => false

/-- `asInt` (scheduler.go). -/
def asInt : GoVal → Int
  | .num n => n
  | _ => 0

/-- `recordJobResult` (sendlog.go). -/
def recordJobResult (id : String) (res : JobResult) (st : SchedulerState) :
    SchedulerState :=
  if id = "" then st else { st with results := mapSet st.results id res }

/-- `getJobResult` (sendlog.go). -/
def getJobResult (id : String) (st : SchedulerState) : Option JobResult :=
  if id = "" then none else mapLookup st.results id

/-- `FileJobStore.Delete` (part_000): remove the first job with the given
id (a missing id is an ignored `os.ErrNotExist`). -/
def storeDelete : List ScheduledEmail → String → List ScheduledEmail
  | [], _ => []
  | j :: rest, id => if j.ID = id then rest else j :: storeDelete rest id

/-- `FileJobStore.Update` (part_000): replace the first job with the given
job's id. -/
def storeUpdate : List ScheduledEmail → ScheduledEmail → List ScheduledEmail
  | [], _ => []
  | j :: rest, job => if j.ID = job.ID then job :: rest else j :: storeUpdate rest job

/-- `Scheduler.Schedule` (scheduler.go): build the job and add it to the
store.  `FileJobStore.Add` appends (and keeps the persisted file sorted by
`RunAt`, a reordering that changes neither the job count nor any job and is
not modelled). -/
def schedule (env : SchedEnv) (st : SchedulerState) (cfg : EmailConfig)
    (runAt : Int) (meta : List (String × GoVal)) : ScheduledEmail × SchedulerState :=
  let job : ScheduledEmail :=
    { ID := env.genId st.counter, Config := cfg, RunAt := runAt, Attempts := 0,
      Meta := meta }
  (job, { st with jobs := st.jobs ++ [job], counter := st.counter + 1 })

/-- The non-empty strings of a decoded JSON array (the `to` /
`provider_priority` override loops of `ScheduleGenericWorkflow`). -/
def collectStrings (xs : List GoVal) : List String :=
  xs.filterMap (fun v =>
    match v with
    | .str s => if s ≠ "" then some s else none
    | _ => none)

/-- The `runAt` computation of one `ScheduleGenericWorkflow` step. -/
def stepRunAt (env : SchedEnv) (stepMap : List (String × GoVal)) : Int :=
  let delayBranch :=
    match mapLookup stepMap "delay_seconds" with
    | some (.num d) => env.now + d * nsPerSecond
    | _ => env.now
  match mapLookup stepMap "run_at" with
  | some (.str v) =>
    if v ≠ "" then
      match env.parseTime v with
      | some t => t
      | none => env.now
    else delayBranch
  | _ => delayBranch

/-- The per-step config overrides of `ScheduleGenericWorkflow` (applied to a
copy of the base config). -/
def applyStepOverrides (base : EmailConfig) (stepMap : List (String × GoVal)) :
    EmailConfig :=
  let cfg := base
  let cfg :=
    match mapLookup stepMap "subject" with
    | some (.str s) => if s ≠ "" then { cfg with Subject := s } else cfg
    | _ => cfg
  let cfg :=
    match mapLookup stepMap "body" with
    | some (.str b) => { cfg with Body := b, TextBody := b }
    | _ => cfg
  let cfg :=
    match mapLookup stepMap "html_body" with
    | some (.str h) => { cfg with HTMLBody := h }
    | _ => cfg
  let cfg :=
    match mapLookup stepMap "to" with
    | some (.arr xs) =>
      if ¬ xs.isEmpty then
        let tos := collectStrings xs
        if ¬ tos.isEmpty then { cfg with To := tos } else cfg
      else cfg
    | _ => cfg
  let cfg :=
    match mapLookup stepMap "provider_priority" with
    | some (.arr xs) =>
      if ¬ xs.isEmpty then
        let pri := collectStrings xs
        if ¬ pri.isEmpty then { cfg with ProviderPriority := pri } else cfg
      else cfg
    | _ => cfg
  let cfg :=
    match mapLookup stepMap "retry_count" with
    | some (.num rc) => { cfg with RetryCount := rc }
    | _ => cfg
  let cfg :=
    match mapLookup stepMap "retry_delay_seconds" with
    | some (.num rd) => { cfg with RetryDelay := rd * nsPerSecond }
    | _ => cfg
  let cfg :=
    match mapLookup stepMap "max_retry_delay_seconds" with
    | some (.num mrd) => { cfg with MaxRetryDelay := mrd * nsPerSecond }
    | _ => cfg
  cfg

/-- The metadata built for step `i` of `ScheduleGenericWorkflow`. -/
def stepMeta (stepMap : List (String × GoVal)) (i : Nat) (lastJobID : String) :
    List (String × GoVal) :=
  let meta := [("step_index", GoVal.num i)]
  let meta :=
    if lastJobID ≠ "" then mapSet meta "prev_job_id" (.str lastJobID) else meta
  let meta :=
    match mapLookup stepMap "name" with
    | some (.str n) =>
      if n ≠ "" then mapSet (mapSet meta "name" (.str n)) "step" (.str n) else meta
    | _ => meta
  let meta :=
    match mapLookup stepMap "step" with
    | some (.str l) => if l ≠ "" then mapSet meta "step" (.str l) else meta
    | _ => meta
  let requireLast :=
    match mapLookup stepMap "require_last_success" with
    | some v => normalizeBool v
    | none => lastJobID ≠ ""
  let meta :=
    if requireLast then
      let skipAhead :=
        match mapLookup stepMap "skip_ahead" with
        | some v => normalizeBool v
        | none => false
      mapSet (mapSet meta "require_last_success" (.boolv true)) "skip_ahead"
        (.boolv skipAhead)
    else meta
  match mapLookup meta "step" with
  | some (GoVal.str s) =>
    if goTrimSpace s = "" then mapSet meta "step" (.str ("step-" ++ toString i))
    else meta
  | _ => mapSet meta "step" (.str ("step-" ++ toString i))

/-- One step of `ScheduleGenericWorkflow`: overrides, metadata, merge into
`AdditionalData`, then `Scheduler.Schedule`. -/
def workflowStep (env : SchedEnv) (base : EmailConfig) (i : Nat)
    (lastJobID : String) (stepMap : List (String × GoVal)) (st : SchedulerState) :
    ScheduledEmail × SchedulerState :=
  let runAt := stepRunAt env stepMap
  let cfg := applyStepOverrides base stepMap
  let meta := stepMeta stepMap i lastJobID
  let cfg :=
    { cfg with AdditionalData := meta.foldl (fun m e => mapSet m e.1 e.2) cfg.AdditionalData }
  schedule env st cfg runAt meta

/-- The step loop of `ScheduleGenericWorkflow`; a non-object step aborts
with an error, leaving the jobs already added in the store. -/
def workflowSteps (env : SchedEnv) (base : EmailConfig) :
    List GoVal → Nat → String → SchedulerState → Except String Unit × SchedulerState
  | [], _, _, st => (.ok (), st)
  | raw :: rest, i, lastJobID, st =>
    match raw with
    | .obj stepMap =>
      let (job, st') := workflowStep env base i lastJobID stepMap st
      workflowSteps env base rest (i + 1) job.ID st'
    | _ => (.error ("workflow step " ++ toString i ++ " must be an object"), st)

/-- `ScheduleGenericWorkflow` (workflows.go). -/
def ScheduleGenericWorkflow (env : SchedEnv) (base : EmailConfig) (defn : GoVal)
    (st : SchedulerState) : Except String Unit × SchedulerState :=
  match defn with
  | .arr steps => workflowSteps env base steps 0 "" st
  | _ => (.error "workflow definition must be an array of steps", st)

/-- `buildSendContext` (scheduler.go). -/
def buildSendContext (job : ScheduledEmail) : SendContext :=
  let ctx : SendContext := { JobID := job.ID }
  let ctx :=
    match mapLookup job.Meta "step_index" with
    | some v => { ctx with StepIndex := asInt v }
    | none => ctx
  let ctx :=
    match mapLookup job.Meta "step" with
    | some (GoVal.str s) =>
      if s ≠ "" then { ctx with Step := s }
      else
        match mapLookup job.Meta "name" with
        | some (GoVal.str n) => if n ≠ "" then { ctx with Step := n } else ctx
        | _ => ctx
    | _ =>
      match mapLookup job.Meta "name" with
      | some (GoVal.str n) => if n ≠ "" then { ctx with Step := n } else ctx
      | _ => ctx
  let ctx :=
    match mapLookup job.Meta "prev_job_id" with
    | some (GoVal.str p) => { ctx with PrevJobID := p }
    | _ => ctx
  let ctx :=
    match mapLookup job.Meta "require_last_success" with
    | some v => { ctx with RequireLastSuccess := normalizeBool v }
    | none => ctx
  let ctx :=
    match mapLookup job.Meta "skip_ahead" with
    | some v => { ctx with SkipAhead := normalizeBool v }
    | none => ctx
  ctx

/-- `handleDependencyFailure` (scheduler.go): record `skipped` when
`skip_ahead` is set, `blocked` otherwise, and delete the job. -/
def handleDependencyFailure (ctx : SendContext) (job : ScheduledEmail)
    (st : SchedulerState) : SchedulerState :=
  let status := if ctx.SkipAhead then JobResult.skipped else JobResult.blocked
  let st := recordJobResult job.ID status st
  { st with jobs := storeDelete st.jobs job.ID }

/-- The execution tail of the `runLoop` goroutine body (scheduler.go): merge
the job metadata into the config, invoke the dispatcher `sendEmail`, and
record/delete/update the job according to the outcome. -/
def executeJob (env : SchedEnv) (job : ScheduledEmail) (ctx : SendContext)
    (st : SchedulerState) : SchedulerState :=
  let cfg :=
    { job.Config with
      AdditionalData :=
        job.Meta.foldl
          (fun m e => if goTrimSpace e.1 = "" then m else mapSet m e.1 e.2)
          job.Config.AdditionalData }
  let res := sendEmail env.send cfg (some ctx) st.send
  let st :=
    { st with send := res.2, dispatched := st.dispatched ++ [job.ID] }
  match res.1 with
  | .error .deduplicated =>
    let st := recordJobResult job.ID .skipped st
    { st with jobs := storeDelete st.jobs job.ID }
  | .error (.msg _) =>
    let job' := { job with Attempts := job.Attempts + 1 }
    let st := { st with jobs := storeUpdate st.jobs job' }
    recordJobResult job.ID .failed st
  | .ok _ =>
    let st := recordJobResult job.ID .success st
    { st with jobs := storeDelete st.jobs job.ID }

/-- The `runLoop` goroutine body for one due job (scheduler.go): the
dependency gate, then execution.  A pending dependency leaves the state
untouched. -/
def processDueJob (env : SchedEnv) (st : SchedulerState) (job : ScheduledEmail) :
    SchedulerState :=
  let ctx := buildSendContext job
  if ctx.RequireLastSuccess ∧ ctx.PrevJobID ≠ "" then
    match getJobResult ctx.PrevJobID st with
    | some res =>
      if res ≠ JobResult.success then handleDependencyFailure ctx job st
      else executeJob env job ctx st
    | none => st
  else executeJob env job ctx st

/-! ## GreedyBatchOptimizer.AllocateJobs (optimizer.go) -/

/-- The route-priority reorder of the optimizer candidate phase: route
priority entries present in the candidates first, then the remaining
candidates in order (each added once). -/
def routeFilterOrder (routePP c : List String) : List String :=
  let newc := routePP.filter (fun p => c.contains p)
  c.foldl (fun acc e => if acc.contains e then acc else acc ++ [e]) newc

/-- The candidate-derivation phase of `AllocateJobs` for one job: explicit
config priority, else route providers, else the config provider; reordered
by route hints / route priority / usage as in the Go code. -/
def candsOf (env : RouteEnv) (j : ScheduledEmail) : List String :=
  let c :=
    if ¬ j.Config.ProviderPriority.isEmpty then j.Config.ProviderPriority
    else
      let c0 :=
        match findFirstMatchingRoute env j.Config with
        | some r =>
          if ¬ r.ProviderPriority.isEmpty then r.ProviderPriority
          else if r.Provider ≠ "" then [r.Provider]
          else []
        | none => []
      if c0.isEmpty ∧ j.Config.Provider ≠ "" then [j.Config.Provider] else c0
  if 1 < c.length then
    match findFirstMatchingRoute env j.Config with
    | some r =>
      if ¬ r.ProviderWeights.isEmpty ∨ ¬ r.ProviderCostOverrides.isEmpty then
        env.usageSort c r.ToDomains r.SelectionWindow r.ProviderWeights
          r.RecencyHalfLife r.ProviderCapacities r.ProviderCostOverrides
      else if j.Config.ProviderPriority.isEmpty then
        if ¬ r.ProviderPriority.isEmpty then routeFilterOrder r.ProviderPriority c
        else env.usageSort c [] 0 [] 0 [] []
      else if ¬ r.ProviderPriority.isEmpty ∧ ¬ j.Config.ProviderPriority.isEmpty then
        routeFilterOrder r.ProviderPriority c
      else c
    | none =>
      if j.Config.ProviderPriority.isEmpty then env.usageSort c [] 0 [] 0 [] []
      else c
  else c

/-- A job with its derived candidates (the optimizer's `jobWrap`). -/
structure JobWrap where
  job : ScheduledEmail
  cands : List String

/-- Lexicographic character-list comparison: Go `s1 < s2` on (ASCII)
strings. -/
def charListLt : List Char → List Char → Bool
  | [], [] => false
  | [], _ :: _ => true
  | _ :: _, [] => false
  | x :: xs, y :: ys =>
    if x < y then true else if y < x then false else charListLt xs ys

/-- The `sort.Slice` comparator of the optimizer (candidate count, then job
id), as a total `le`. -/
def wrapLe (a b : JobWrap) : Bool :=
  if a.cands.length = b.cands.length then
    charListLt a.job.ID.data b.job.ID.data || a.job.ID == b.job.ID
  else decide (a.cands.length < b.cands.length)

/-- Insertion into a sorted list (auxiliary to `sortSlice`). -/
def sortInsert (le : JobWrap → JobWrap → Bool) (x : JobWrap) :
    List JobWrap → List JobWrap
  | [] => [x]
  | y :: ys => if le x y then x :: y :: ys else y :: sortInsert le x ys

/-- Model of Go `sort.Slice` for the optimizer's comparator: an insertion
sort.  The comparator `wrapLe` is a total order (candidate count, then job
id), so any correct sort — Go's introsort included — produces this same
list whenever job ids are distinct. -/
def sortSlice (le : JobWrap → JobWrap → Bool) : List JobWrap → List JobWrap
  | [] => []
  | x :: xs => sortInsert le x (sortSlice le xs)

/-- The allocation state of `AllocateJobs`: the `assign` and `counts`
maps. -/
structure AllocSt where
  assign : List (String × String) := []
  counts : List (String × Int) := []
deriving Repr, DecidableEq

/-- Go map read with zero default (`counts[prov]`). -/
def countOf (counts : List (String × Int)) (p : String) : Int :=
  match mapLookup counts p with
  | some n => n
  | none => 0

/-- The per-candidate capacity resolution of the allocation loop: the
positive route override, else the positive provider default, else unlimited
(`none` means the candidate is skipped as over capacity; unlimited is the Go
`1 << 30` sentinel). -/
def remCapFor (pd : List (String × ProviderSetting)) (route : Option ProviderRoute)
    (counts : List (String × Int)) (prov : String) : Option Int :=
  let cap : Int :=
    match route with
    | some r =>
      match mapLookup r.ProviderCapacities prov with
      | some v => if 0 < v then v else -1
      | none => -1
    | none => -1
  let cap :=
    if cap < 0 then
      match mapLookup pd prov with
      | some ds => if 0 < ds.Capacity then ds.Capacity else -1
      | none => -1
    else cap
  if cap < 0 then some (2 ^ 30)
  else
    let rem := cap - countOf counts prov
    if 0 < rem then some rem else none

/-- The `remCap[prov]` read of the allocation loop (missing key reads 0). -/
def remLookup (pd : List (String × ProviderSetting)) (route : Option ProviderRoute)
    (counts : List (String × Int)) (prov : String) : Int :=
  match remCapFor pd route counts prov with
  | some rem => rem
  | none => 0

/-- `providerDefaults[p].Cost` with the Go loop's `1.0` default for missing
or non-positive costs. -/
def costOf (pd : List (String × ProviderSetting)) (p : String) : Rat :=
  match mapLookup pd p with
  | some ds => if 0 < ds.Cost then ds.Cost else 1
  | none => 1

/-- The optimizer's fallback scan over `eligible` (largest remaining
capacity, ties by lower cost); in the Go code this branch is unreachable
because `eligible` only holds candidates with positive remaining
capacity. -/
def bestOf (pd : List (String × ProviderSetting)) (rem : String → Int) :
    String → List String → String
  | best, [] => best
  | best, p :: rest =>
    if rem best < rem p ∨ (rem p = rem best ∧ costOf pd p < costOf pd best) then
      bestOf pd rem p rest
    else bestOf pd rem best rest

/-- One iteration of the allocation loop of `AllocateJobs`: choose the
highest-ranked candidate with remaining capacity, else fall back to the
first candidate; a job with no candidates is skipped. -/
def allocStep (pd : List (String × ProviderSetting)) (env : RouteEnv)
    (st : AllocSt) (w : JobWrap) : AllocSt :=
  let route := findFirstMatchingRoute env w.job.Config
  let eligible := w.cands.filter (fun p => (remCapFor pd route st.counts p).isSome)
  let chosen? : Option String :=
    match eligible with
    | e0 :: erest =>
      match w.cands.find? (fun p => 0 < remLookup pd route st.counts p) with
      | some p => some p
      | none => some (bestOf pd (remLookup pd route st.counts) e0 erest)
    | [] =>
      match w.cands with
      | c0 :: _ => some c0
      | [] => none
  match chosen? with
  | none => st
  | some chosen =>
    { assign := mapSet st.assign w.job.ID chosen
      counts := mapSet st.counts chosen (countOf st.counts chosen + 1) }

/-- `GreedyBatchOptimizer.AllocateJobs` (optimizer.go): derive and order
candidates per job, process jobs by ascending candidate count (ties by job
id), and allocate greedily under the per-batch capacities.  `pd` is the
`providerDefaults` map. -/
def AllocateJobs (pd : List (String × ProviderSetting)) (env : RouteEnv)
    (jobs : List ScheduledEmail) : List (String × String) :=
  let wrapped := jobs.map (fun j => JobWrap.mk j (candsOf env j))
  let sorted := sortSlice wrapLe wrapped
  (sorted.foldl (allocStep pd env) {}).assign

/-! ## Concrete fixtures used to evaluate the model on closed inputs -/

/-- A concrete routing environment: addresses parse as plain `local@domain`,
regexes never compile, the send log is empty, and usage sorting keeps the
given order. -/
def trivRouteEnv : RouteEnv where
  parseAddress := fun s => some ("", s)
  regexCompile := fun _ => none
  countSuccesses := fun _ _ _ => .ok 0
  usageSort := fun providers _ _ _ _ _ _ => providers
  now := 0

/-- A concrete routing environment whose send-log reads always fail. -/
def errRouteEnv : RouteEnv :=
  { trivRouteEnv with countSuccesses := fun _ _ _ => .error () }

/-- A concrete send environment over `trivRouteEnv`: preparation and
finalization are identities (modulo the retry clamp), hashes are the
identity, and every transport attempt succeeds. -/
def trivSendEnv : SendEnv where
  route := trivRouteEnv
  sha := fun s => s
  prepare := fun c => .ok c
  finalizeRest := fun c => .ok c
  sendViaHTTP := fun _ _ => none
  sendViaSMTP := fun _ _ => none
  now := 0

/-- A concrete send environment whose transports always fail. -/
def failSendEnv : SendEnv :=
  { trivSendEnv with
    sendViaHTTP := fun _ _ => some "http refused"
    sendViaSMTP := fun _ _ => some "smtp refused" }

/-- A concrete scheduler environment over `trivSendEnv`. -/
def trivSchedEnv : SchedEnv where
  genId := fun n => "job-" ++ toString n
  parseTime := fun _ => none
  now := 0
  send := trivSendEnv

/-! ## Claim theorems -/

/-- Helper: a member of a list is in its `dropLast` or is its last element. -/
theorem mem_dropLast_or_getLast {l : List String} {a : String} (h : a ∈ l) :
    a ∈ l.dropLast ∨ l.getLast? = some a := by
  rcases List.eq_nil_or_concat l with rfl | ⟨l', b, rfl⟩
  · simp at h
  · rw [List.concat_eq_append] at h ⊢
    rw [List.dropLast_concat, List.getLast?_concat]
    rcases List.mem_append.1 h with h' | h'
    · exact Or.inl h'
    · simp at h'; subst h'; exact Or.inr rfl

/-- Helper: the collection loop of `normalizeProviderList` keeps the
accumulator duplicate-free. -/
theorem normCollect_nodup :
    ∀ (l out : List String), out.Nodup → (normCollect l out).Nodup := by
  intro l
  induction l with
  | nil => intro out h; simpa [normCollect] using h
  | cons p rest ih =>
    intro out h
    simp only [normCollect]
    split
    · exact ih out h
    · rename_i hcond
      refine ih (out ++ [goNorm p]) ?_
      have hnm : goNorm p ∉ out := fun hm =>
        hcond (Or.inr (by simpa [List.contains, List.elem_iff] using hm))
      simp [List.nodup_append, h, hnm]

/-- Helper: every element produced by the collection loop is either from the
accumulator or the normalization of an input name. -/
theorem normCollect_mem :
    ∀ (l out : List String) (x : String), x ∈ normCollect l out →
      x ∈ out ∨ ∃ p ∈ l, x = goNorm p := by
  intro l
  induction l with
  | nil => intro out x h; exact Or.inl (by simpa [normCollect] using h)
  | cons p rest ih =>
    intro out x h
    simp only [normCollect] at h
    split at h
    · rcases ih out x h with h' | ⟨q, hq, rfl⟩
      · exact Or.inl h'
      · exact Or.inr ⟨q, List.mem_cons_of_mem _ hq, rfl⟩
    · rcases ih (out ++ [goNorm p]) x h with h' | ⟨q, hq, rfl⟩
      · rcases List.mem_append.1 h' with h'' | h''
        · exact Or.inl h''
        · simp at h''
          exact Or.inr ⟨p, List.mem_cons_self _ _, h''⟩
      · exact Or.inr ⟨q, List.mem_cons_of_mem _ hq, rfl⟩

/-- Helper: names that all normalize to the empty string collect to
nothing. -/
theorem normCollect_nil :
    ∀ (l out : List String), (∀ p ∈ l, goNorm p = "") → normCollect l out = out := by
  intro l
  induction l with
  | nil => intro out _; rfl
  | cons p rest ih =>
    intro out h
    have hp : goNorm p = "" := h p (List.mem_cons_self _ _)
    simp only [normCollect]
    rw [if_pos (Or.inl hp)]
    exact ih out (fun q hq => h q (List.mem_cons_of_mem _ hq))

/-- Helper: the output invariants of `normalizeProviderList`: non-empty,
duplicate-free, all elements normalized names, the normalized fallback last
unless it occurs earlier or is empty, and the singleton fallback result when
nothing survives collection. -/
theorem normalizeProviderList_props (l : List String) (fb : String) :
    normalizeProviderList l fb ≠ [] ∧
    (normalizeProviderList l fb).Nodup ∧
    (∀ x ∈ normalizeProviderList l fb, ∃ p, x = goNorm p) ∧
    (goNorm fb = "" ∨
      (normalizeProviderList l fb).getLast? = some (goNorm fb) ∨
      goNorm fb ∈ (normalizeProviderList l fb).dropLast) ∧
    (normCollect l [] ≠ [] ∨ normalizeProviderList l fb = [goNorm fb]) := by
  have hnodup0 : (normCollect l []).Nodup := normCollect_nodup l [] (by simp)
  have hmem0 : ∀ x ∈ normCollect l [], ∃ p, x = goNorm p := by
    intro x hx
    rcases normCollect_mem l [] x hx with h | ⟨p, _, rfl⟩
    · simp at h
    · exact ⟨p, rfl⟩
  have hgoNormEmpty : goNorm "" = "" := rfl
  unfold normalizeProviderList
  by_cases hfb : fb ≠ ""
  · simp only [if_pos hfb]
    by_cases happ : goNorm fb ≠ "" ∧ ¬ (normCollect l []).contains (goNorm fb)
    · simp only [if_pos happ]
      have hne : normCollect l [] ++ [goNorm fb] ≠ [] := by simp
      simp only [if_neg hne]
      refine ⟨by simp, ?_, ?_, ?_, ?_⟩
      · have hnm : goNorm fb ∉ normCollect l [] := fun hm =>
          happ.2 (by simpa [List.contains, List.elem_iff] using hm)
        simp [List.nodup_append, hnodup0, hnm]
      · intro x hx
        rcases List.mem_append.1 hx with hx | hx
        · exact hmem0 x hx
        · simp at hx; exact ⟨fb, hx⟩
      · exact Or.inr (Or.inl (List.getLast?_concat _))
      · by_cases h0 : normCollect l [] = []
        · exact Or.inr (by rw [h0]; simp)
        · exact Or.inl h0
    · simp only [if_neg happ]
      by_cases h0 : normCollect l [] = []
      · simp only [if_pos h0]
        refine ⟨by simp, by simp, ?_, ?_, Or.inr (by simp)⟩
        · intro x hx; simp at hx; exact ⟨fb, hx⟩
        · rcases Decidable.em (goNorm fb = "") with hs | hs
          · exact Or.inl hs
          · exfalso
            apply happ
            refine ⟨hs, ?_⟩
            rw [h0]
            simp [List.contains]
      · simp only [if_neg h0]
        refine ⟨h0, hnodup0, hmem0, ?_, Or.inl h0⟩
        rcases Decidable.em (goNorm fb = "") with hs | hs
        · exact Or.inl hs
        · have hc : (normCollect l []).contains (goNorm fb) := by
            by_contra hc
            exact happ ⟨hs, hc⟩
          have hm : goNorm fb ∈ normCollect l [] := by
            simpa [List.contains, List.elem_iff] using hc
          rcases mem_dropLast_or_getLast hm with h | h
          · exact Or.inr (Or.inr h)
          · exact Or.inr (Or.inl h)
  · simp only [if_neg hfb]
    push_neg at hfb
    subst hfb
    by_cases h0 : normCollect l [] = []
    · simp only [if_pos h0, if_neg (by simp : ¬ ("" ≠ ""))]
      exact ⟨by simp, by simp, by intro x hx; simp at hx; exact ⟨"", hx⟩,
        Or.inl rfl, Or.inr rfl⟩
    · simp only [if_neg h0]
      exact ⟨h0, hnodup0, hmem0, Or.inl rfl, Or.inl h0⟩

/-- Helper: the route loop of `resolveProviders` always returns a
`normalizeProviderList` result with the config provider as fallback. -/
theorem resolveFromRoutes_eq (env : RouteEnv) (cfg : EmailConfig) :
    ∀ routes, ∃ base,
      resolveFromRoutes env cfg routes = normalizeProviderList base cfg.Provider := by
  intro routes
  induction routes with
  | nil => exact ⟨[], rfl⟩
  | cons r rest ih =>
    simp only [resolveFromRoutes]
    split_ifs <;> first
      | exact ih
      | exact ⟨_, rfl⟩

/-- Helper: every `resolveProviders` result is a `normalizeProviderList`
result with the config provider as fallback. -/
theorem resolveProviders_eq (env : RouteEnv) (cfg : EmailConfig) :
    ∃ base, resolveProviders env cfg = normalizeProviderList base cfg.Provider := by
  unfold resolveProviders
  by_cases h1 : ¬ cfg.ProviderPriority.isEmpty
  · rw [if_pos h1]
    cases findFirstMatchingRoute env cfg with
    | none => dsimp only; split <;> exact ⟨_, rfl⟩
    | some r => dsimp only; split <;> split <;> exact ⟨_, rfl⟩
  · rw [if_neg h1]
    exact resolveFromRoutes_eq env cfg cfg.ProviderRoutes

/-- C1 (amended): for every message and environment, `resolveProviders`
returns a non-empty, duplicate-free list of normalized (lowercased, trimmed)
provider names; the normalized `Provider` is last unless it appears earlier
or normalizes to the empty string (an empty provider is never appended to a
non-empty list); and when every input name normalizes away,
`normalizeProviderList` returns the one-element normalized fallback, even
when that is the empty string. -/
theorem c1_resolve_normalized (env : RouteEnv) (cfg : EmailConfig) :
    resolveProviders env cfg ≠ [] ∧
    (resolveProviders env cfg).Nodup ∧
    (∀ x ∈ resolveProviders env cfg, ∃ p, x = goNorm p) ∧
    (goNorm cfg.Provider = "" ∨
      (resolveProviders env cfg).getLast? = some (goNorm cfg.Provider) ∨
      goNorm cfg.Provider ∈ (resolveProviders env cfg).dropLast) ∧
    (∀ l fb, (∀ p ∈ l, goNorm p = "") → normalizeProviderList l fb = [goNorm fb]) := by
  obtain ⟨base, hb⟩ := resolveProviders_eq env cfg
  obtain ⟨h1, h2, h3, h4, _⟩ := normalizeProviderList_props base cfg.Provider
  rw [hb]
  refine ⟨h1, h2, h3, h4, ?_⟩
  intro l fb hall
  obtain ⟨_, _, _, _, h5⟩ := normalizeProviderList_props l fb
  rcases h5 with h5 | h5
  · exact absurd (normCollect_nil l [] hall) h5
  · exact h5

/-- C1 counterexample to the claim as stated: a message with an empty
`Provider` and priority `["a"]` resolves to `["a"]`, which neither ends with
`M.Provider` nor contains it earlier — the empty provider is not appended. -/
theorem c1_counterexample :
    resolveProviders trivRouteEnv { Provider := "", ProviderPriority := ["a"] } = ["a"] ∧
    ¬ ((resolveProviders trivRouteEnv
          { Provider := "", ProviderPriority := ["a"] }).getLast? = some "" ∨
       "" ∈ (resolveProviders trivRouteEnv
          { Provider := "", ProviderPriority := ["a"] }).dropLast) := by
  constructor
  · decide
  · decide

/-- C1 witness: the amended theorem evaluated at the concrete fixture. -/
theorem c1_witness :
    resolveProviders trivRouteEnv { Provider := "SES ", ProviderPriority := ["a"] } ≠ [] ∧
    (resolveProviders trivRouteEnv
      { Provider := "SES ", ProviderPriority := ["a"] }).Nodup := by
  obtain ⟨h1, h2, _⟩ :=
    c1_resolve_normalized trivRouteEnv { Provider := "SES ", ProviderPriority := ["a"] }
  exact ⟨h1, h2⟩

/-- C4: `routeMatches` returns true exactly when some recipient's domain is
in the route's to-domain set, or the sender's domain is in its from-domain
set, or its non-empty subject regex compiles and matches the subject; the
domain comparison is case-insensitive (`goEqualFold` on trimmed entries).
With no to-domain, no from-domain and no subject-regex condition every
disjunct is false, so such a route never matches. -/
theorem c4_routeMatches_iff (env : RouteEnv) (cfg : EmailConfig) (r : ProviderRoute) :
    routeMatches env cfg r = true ↔
      ((∃ rcpt ∈ cfg.To, ∃ t ∈ r.ToDomains,
          goEqualFold (goTrimSpace t) (extractDomain (splitAddress env rcpt).2) = true) ∨
       (∃ f ∈ r.FromDomains,
          goEqualFold (goTrimSpace f) (extractDomain (splitAddress env cfg.From).2) = true) ∨
       (r.SubjectRegex ≠ "" ∧
          ∃ m, env.regexCompile r.SubjectRegex = some m ∧ m cfg.Subject = true)) := by
  unfold routeMatches
  split_ifs with hguard
  · obtain ⟨h1, h2, h3⟩ := hguard
    simp [h1, h2, h3]
  · cases hre : env.regexCompile r.SubjectRegex with
    | none =>
      simp only [hre, Bool.or_eq_true, Bool.and_eq_true, List.any_eq_true,
        Bool.not_eq_true', List.isEmpty_eq_false]
      constructor
      · rintro ((⟨_, h⟩ | ⟨_, h⟩) | ⟨_, h⟩)
        · exact Or.inl h
        · exact Or.inr (Or.inl h)
        · cases h
      · rintro (h | h | ⟨_, m, hm, _⟩)
        · obtain ⟨x, hx, t, ht, hmt⟩ := h
          exact Or.inl (Or.inl ⟨List.ne_nil_of_mem ht, x, hx, t, ht, hmt⟩)
        · obtain ⟨f, hf, hmt⟩ := h
          exact Or.inl (Or.inr ⟨List.ne_nil_of_mem hf, f, hf, hmt⟩)
        · exact Option.noConfusion hm
    | some m =>
      simp only [hre, Bool.or_eq_true, Bool.and_eq_true, List.any_eq_true,
        Bool.not_eq_true', List.isEmpty_eq_false]
      constructor
      · rintro ((⟨_, h⟩ | ⟨_, h⟩) | ⟨hne, hmt⟩)
        · exact Or.inl h
        · exact Or.inr (Or.inl h)
        · exact Or.inr (Or.inr ⟨of_decide_eq_false hne, m, rfl, hmt⟩)
      · rintro (h | h | ⟨hne, m1, hm1, hmt⟩)
        · obtain ⟨x, hx, t, ht, hmt⟩ := h
          exact Or.inl (Or.inl ⟨List.ne_nil_of_mem ht, x, hx, t, ht, hmt⟩)
        · obtain ⟨f, hf, hmt⟩ := h
          exact Or.inl (Or.inr ⟨List.ne_nil_of_mem hf, f, hf, hmt⟩)
        · obtain rfl : m = m1 := Option.some.inj hm1
          exact Or.inr ⟨decide_eq_false_iff_not.mpr hne, hmt⟩


/-- Helper: a limit check cannot fire when every successful count read stays
below the limit (an errored read never fires it). -/
theorem limitExceeded_false (env : RouteEnv) (providers toDomains : List String)
    (since limit : Int)
    (h : ∀ c, env.countSuccesses providers since toDomains = .ok c → c < limit) :
    limitExceeded env providers toDomains since limit = false := by
  unfold limitExceeded
  cases hc : env.countSuccesses providers since toDomains with
  | ok c => simpa using not_le_of_lt (h c hc)
  | error e => rfl

/-- C5 (amended: a limit is configured when it is positive): over a send log
`log` read without error at time `now`, `routeWithinLimits` reports a route
exhausted exactly when one of its positive hourly/daily/weekly/monthly
limits is met by the count of successful entries for the route's providers
over its to-domains in the corresponding window of 1h/24h/7d/30d. -/
theorem c5_routeWithinLimits_iff (log : List SendLogEntry) (now : Int)
    (r : ProviderRoute) :
    routeWithinLimits (envFromLog log now) r = false ↔
      ((0 < r.HourlyLimit ∧ r.HourlyLimit ≤
          countSuccessesFromReader log (routeProviders r) (now - nsPerHour) r.ToDomains) ∨
       (0 < r.DailyLimit ∧ r.DailyLimit ≤
          countSuccessesFromReader log (routeProviders r) (now - 24 * nsPerHour) r.ToDomains) ∨
       (0 < r.WeeklyLimit ∧ r.WeeklyLimit ≤
          countSuccessesFromReader log (routeProviders r) (now - 7 * 24 * nsPerHour) r.ToDomains) ∨
       (0 < r.MonthlyLimit ∧ r.MonthlyLimit ≤
          countSuccessesFromReader log (routeProviders r) (now - 30 * 24 * nsPerHour) r.ToDomains)) := by
  simp only [routeWithinLimits, limitExceeded, envFromLog, decide_eq_true_eq]
  split_ifs with h1 h2 h3 h4
  · exact ⟨fun _ => Or.inl h1, fun _ => rfl⟩
  · exact ⟨fun _ => Or.inr (Or.inl h2), fun _ => rfl⟩
  · exact ⟨fun _ => Or.inr (Or.inr (Or.inl h3)), fun _ => rfl⟩
  · exact ⟨fun _ => Or.inr (Or.inr (Or.inr h4)), fun _ => rfl⟩
  · constructor
    · intro h
      exact h.elim
    · rintro (h | h | h | h)
      · exact absurd h h1
      · exact absurd h h2
      · exact absurd h h3
      · exact absurd h h4

/-- C5 counterexample to the claim as stated: a route whose only limit is
the non-zero `HourlyLimit = -1` satisfies "some configured limit is non-zero
and the window count is at least that limit" (0 ≥ −1 over the empty log),
yet `routeWithinLimits` treats it as within limits: only positive limits are
enforced. -/
theorem c5_counterexample :
    routeWithinLimits (envFromLog [] 0) { HourlyLimit := -1 } = true ∧
    ({ HourlyLimit := -1 : ProviderRoute }).HourlyLimit ≠ 0 ∧
    ({ HourlyLimit := -1 : ProviderRoute }).HourlyLimit ≤
      countSuccessesFromReader [] (routeProviders { HourlyLimit := -1 })
        (0 - nsPerHour) ({ HourlyLimit := -1 : ProviderRoute }).ToDomains := by
  refine ⟨by decide, by decide, by decide⟩

/-- C10: a send-log read error is swallowed: whenever every *successfully*
computed window count stays below its positive limit, `routeWithinLimits`
returns true — a failing read can never exhaust a route, whatever the other
windows return. -/
theorem c10_count_error_within_limits (env : RouteEnv) (r : ProviderRoute)
    (h1 : ∀ c, env.countSuccesses (routeProviders r) (env.now - nsPerHour) r.ToDomains =
      .ok c → c < r.HourlyLimit)
    (h2 : ∀ c, env.countSuccesses (routeProviders r) (env.now - 24 * nsPerHour) r.ToDomains =
      .ok c → c < r.DailyLimit)
    (h3 : ∀ c, env.countSuccesses (routeProviders r) (env.now - 7 * 24 * nsPerHour) r.ToDomains =
      .ok c → c < r.WeeklyLimit)
    (h4 : ∀ c, env.countSuccesses (routeProviders r) (env.now - 30 * 24 * nsPerHour) r.ToDomains =
      .ok c → c < r.MonthlyLimit) :
    routeWithinLimits env r = true := by
  unfold routeWithinLimits
  simp only [limitExceeded_false env _ _ _ _ h1, limitExceeded_false env _ _ _ _ h2,
    limitExceeded_false env _ _ _ _ h3, limitExceeded_false env _ _ _ _ h4]
  simp

/-- C10 witness: with every send-log read failing and a positive hourly
limit, the route is still within limits. -/
theorem c10_witness :
    routeWithinLimits errRouteEnv
      { HourlyLimit := 5, DailyLimit := 7, Provider := "a" } = true :=
  c10_count_error_within_limits errRouteEnv
    { HourlyLimit := 5, DailyLimit := 7, Provider := "a" }
    (fun c h => Except.noConfusion h) (fun c h => Except.noConfusion h)
    (fun c h => Except.noConfusion h) (fun c h => Except.noConfusion h)

/-- Helper: a string of the dedup-key shape `a|b|c|d` is never empty. -/
theorem pipe_concat_ne_empty (a b c d : String) :
    a ++ "|" ++ b ++ "|" ++ c ++ "|" ++ d ≠ "" := by
  intro h
  have hlen := congrArg String.length h
  have hone : ("|" : String).length = 1 := rfl
  have hzero : ("" : String).length = 0 := rfl
  simp only [String.length_append, hone, hzero] at hlen
  omega

/-- C2 (amended: the key is non-empty iff the normalized schedule mode is
neither empty nor `repeat`): when computed, the dedup key is exactly the
concatenation of the lowercased joined recipients, the lowercased step
label, the hash of the lowercased trimmed subject and the hash of the
lowercased trimmed body+text+html — a deterministic function of the
message, so equal inputs yield equal keys. -/
theorem c2_dedupKey (sha : String → String) (cfg : EmailConfig)
    (ctx : Option SendContext) :
    (dedupKeyFromConfig sha cfg ctx ≠ "" ↔
      (goToLower (goTrimSpace cfg.ScheduleMode) ≠ "" ∧
       goToLower (goTrimSpace cfg.ScheduleMode) ≠ "repeat")) ∧
    (dedupKeyFromConfig sha cfg ctx ≠ "" →
      dedupKeyFromConfig sha cfg ctx =
        goToLower (goJoin cfg.To ",") ++ "|" ++ goToLower (dedupStep cfg ctx) ++ "|" ++
        sha (goToLower (goTrimSpace cfg.Subject)) ++ "|" ++
        sha (goToLower (goTrimSpace (cfg.Body ++ cfg.TextBody ++ cfg.HTMLBody)))) := by
  simp only [dedupKeyFromConfig]
  split_ifs with hmode
  · refine ⟨⟨fun h => absurd rfl h, ?_⟩, fun h => absurd rfl h⟩
    rintro ⟨ha, hb⟩
    rcases hmode with h | h
    · exact absurd h ha
    · exact absurd h hb
  · push_neg at hmode
    refine ⟨⟨fun _ => hmode, fun _ => pipe_concat_ne_empty _ _ _ _⟩, fun _ => rfl⟩

/-- C2 counterexample to the claim as stated: a message with an empty
schedule mode has mode ≠ `repeat`, yet no dedup key is computed. -/
theorem c2_counterexample :
    dedupKeyFromConfig (fun s => s) { ScheduleMode := "", To := ["u@x"] } none = "" ∧
    ({ ScheduleMode := "", To := ["u@x"] : EmailConfig }).ScheduleMode ≠ "repeat" := by
  exact ⟨by decide, by decide⟩

/-- C2 witness: a concrete one-shot message gets a non-empty dedup key. -/
theorem c2_witness :
    dedupKeyFromConfig (fun s => s) { ScheduleMode := "once", To := ["A@b"] } none ≠ "" :=
  (c2_dedupKey (fun s => s) { ScheduleMode := "once", To := ["A@b"] } none).1.mpr
    (by exact ⟨by decide, by decide⟩)

/-- C4 witness: a concrete route with a matching recipient domain matches a
concrete message (via the equivalence). -/
theorem c4_witness :
    routeMatches trivRouteEnv { To := ["u@Gmail.com"] } { ToDomains := ["gmail.com"] } = true :=
  (c4_routeMatches_iff trivRouteEnv { To := ["u@Gmail.com"] } { ToDomains := ["gmail.com"] }).mpr
    (Or.inl ⟨"u@Gmail.com", by simp, "gmail.com", by simp, by decide⟩)

/-- C5 witness: one successful send for provider `a` within the hour
exhausts a route with hourly limit 1 (via the equivalence). -/
theorem c5_witness :
    routeWithinLimits
      (envFromLog [{ Timestamp := 0, Provider := "a", Success := true, Recipients := ["u@x"] }] 0)
      { HourlyLimit := 1, Provider := "a" } = false :=
  (c5_routeWithinLimits_iff
      [{ Timestamp := 0, Provider := "a", Success := true, Recipients := ["u@x"] }] 0
      { HourlyLimit := 1, Provider := "a" }).mpr
    (Or.inl ⟨by decide, by decide⟩)

/-- Helper: wrapping decreases values at or above the signed minimum. -/
theorem wrap64_le_self (x : Int) (h : -2 ^ 63 ≤ x) : wrap64 x ≤ x := by
  unfold wrap64; omega

/-- Helper: a wrapped value is below `2^63`. -/
theorem wrap64_lt (x : Int) : wrap64 x < 2 ^ 63 := by
  unfold wrap64; omega

/-- Helper: values within the signed 64-bit range wrap to themselves. -/
theorem wrap64_eq_self (x : Int) (h1 : -2 ^ 63 ≤ x) (h2 : x < 2 ^ 63) :
    wrap64 x = x := by
  unfold wrap64; omega

/-- Helper: the pre-cap `upper` of `jitterBackoff` never exceeds the
mathematical bound `b · 2^(attempt−1)` for a positive base, Go `int64`
overflow included. -/
theorem jitter_upper_le (k : Nat) (b : Int) (hb : 1 ≤ b) :
    wrap64 (wrap64 (2 ^ k) * b) ≤ b * 2 ^ k := by
  have hpow : (0 : Int) ≤ 2 ^ k := pow_nonneg (by norm_num) k
  rcases le_or_lt 0 (wrap64 (2 ^ k)) with hfac | hfac
  · have h1 : wrap64 (2 ^ k) ≤ 2 ^ k := wrap64_le_self _ (by linarith [hpow])
    have h2 : wrap64 (2 ^ k) * b ≤ 2 ^ k * b :=
      mul_le_mul_of_nonneg_right h1 (by linarith)
    have h3 : 0 ≤ wrap64 (2 ^ k) * b := mul_nonneg hfac (by linarith)
    calc wrap64 (wrap64 (2 ^ k) * b) ≤ wrap64 (2 ^ k) * b :=
          wrap64_le_self _ (by linarith)
      _ ≤ 2 ^ k * b := h2
      _ = b * 2 ^ k := mul_comm _ _
  · have hk : 63 ≤ k := by
      by_contra hk
      push_neg at hk
      have hlt : (2 : Int) ^ k < 2 ^ 63 := by
        exact pow_lt_pow_right₀ (by norm_num) hk
      rw [wrap64_eq_self _ (by linarith) hlt] at hfac
      exact absurd hpow (not_le_of_lt hfac)
    have hbig : (2 : Int) ^ 63 ≤ 2 ^ k := pow_le_pow_right₀ (by norm_num) hk
    have : (2 : Int) ^ 63 ≤ b * 2 ^ k := by
      calc (2 : Int) ^ 63 ≤ 2 ^ k := hbig
        _ = 1 * 2 ^ k := (one_mul _).symm
        _ ≤ b * 2 ^ k := mul_le_mul_of_nonneg_right hb hpow
    linarith [wrap64_lt (wrap64 (2 ^ k) * b)]

/-- C6 (amended: a cap `c ≤ 0` — not only `c = 0` — disables capping, so
the interval bound holds with the cap applied only when `c > 0`): for
`attempt ≥ 1` and a uniform-random source, `jitterBackoff` lies in
`[0, min(c, b'·2^(attempt−1))]` for `c > 0` and in `[0, b'·2^(attempt−1)]`
otherwise, where `b'` is the base, replaced by 2s when `b ≤ 0`.  The bound
holds through Go `int64` shift/multiplication overflow. -/
theorem c6_jitterBackoff_bound (attempt base maxDelay : Int) (rand : Int → Int)
    (hatt : 1 ≤ attempt)
    (hrand : ∀ n, 0 < n → 0 ≤ rand n ∧ rand n < n) :
    0 ≤ jitterBackoff attempt base maxDelay rand ∧
    jitterBackoff attempt base maxDelay rand ≤
      (if 0 < maxDelay
       then min maxDelay
         ((if base ≤ 0 then 2 * nsPerSecond else base) * 2 ^ (attempt - 1).toNat)
       else (if base ≤ 0 then 2 * nsPerSecond else base) * 2 ^ (attempt - 1).toNat) := by
  have hb : 1 ≤ (if base ≤ 0 then 2 * nsPerSecond else base) := by
    split_ifs with h
    · norm_num [nsPerSecond]
    · omega
  set b' := if base ≤ 0 then 2 * nsPerSecond else base with hb'def
  set k := (attempt - 1).toNat with hkdef
  have hupper := jitter_upper_le k b' hb
  set u0 := wrap64 (wrap64 (2 ^ k) * b') with hu0def
  have hBpos : 0 < b' * 2 ^ k := by positivity
  simp only [jitterBackoff, ← hb'def, ← hkdef, ← hu0def]
  by_cases hcap : 0 < maxDelay ∧ maxDelay < u0
  · rw [if_pos hcap]
    rw [if_neg (by omega : ¬ maxDelay ≤ 0)]
    obtain ⟨hr0, hr1⟩ := hrand (maxDelay + 1) (by omega)
    refine ⟨hr0, ?_⟩
    rw [if_pos hcap.1]
    have hmB : maxDelay ≤ b' * 2 ^ k := by
      calc maxDelay ≤ u0 := le_of_lt hcap.2
        _ ≤ b' * 2 ^ k := hupper
    rw [min_eq_left hmB]
    omega
  · rw [if_neg hcap]
    by_cases hu : u0 ≤ 0
    · rw [if_pos hu]
      refine ⟨le_refl 0, ?_⟩
      split_ifs with hmd
      · exact le_min (by omega) (le_of_lt hBpos)
      · exact le_of_lt hBpos
    · rw [if_neg hu]
      push_neg at hu
      obtain ⟨hr0, hr1⟩ := hrand (u0 + 1) (by omega)
      refine ⟨hr0, ?_⟩
      split_ifs with hmd
      · have hum : u0 ≤ maxDelay := by
          rcases not_and_or.mp hcap with h | h
          · exact absurd hmd h
          · omega
        exact le_min (by omega) (by omega)
      · omega

/-- C6 witness: at attempt 3 with base 0 (defaulted to 2s) and cap 10ns the
backoff is within `[0, 10]`. -/
theorem c6_witness :
    0 ≤ jitterBackoff 3 0 10 (fun n => n - 1) ∧
    jitterBackoff 3 0 10 (fun n => n - 1) ≤ 10 := by
  obtain ⟨h1, h2⟩ :=
    c6_jitterBackoff_bound 3 0 10 (fun n => n - 1) (by norm_num)
      (fun n hn => ⟨by show (0 : Int) ≤ n - 1; omega, by show n - 1 < n; omega⟩)
  refine ⟨h1, ?_⟩
  norm_num [nsPerSecond] at h2
  exact h2.1

set_option maxRecDepth 4000 in
/-- C6 counterexample to the claim as stated: with the negative cap `−1`
no capping happens and the result 0 is not in the empty interval
`[0, min(−1, b·2^(a−1))]`. -/
theorem c6_counterexample :
    jitterBackoff 1 1 (-1) (fun _ => 0) = 0 ∧
    ¬ (0 ≤ jitterBackoff 1 1 (-1) (fun _ => 0) ∧
       jitterBackoff 1 1 (-1) (fun _ => 0) ≤ min (-1) ((1 : Int) * 2 ^ ((1 : Int) - 1).toNat)) := by
  have h : jitterBackoff 1 1 (-1) (fun _ => 0) = 0 := by decide
  refine ⟨h, ?_⟩
  rintro ⟨_, h2⟩
  rw [h] at h2
  norm_num at h2

/-- Helper: marking a non-empty dedup key makes it present in the store. -/
theorem markDedupKey_contains (key : String) (st : SendState) (h : key ≠ "") :
    (markDedupKey key st).dedup.contains key = true := by
  unfold markDedupKey
  rw [if_neg h]
  split_ifs with hc
  · exact hc
  · simp [List.contains, List.elem_iff]

/-- Helper: a successful retry loop marks the (non-empty) dedup key. -/
theorem tryAttempts_true_marks (env : SendEnv) (ctx : Option SendContext)
    (fcfg : EmailConfig) (key : String) (hkey : key ≠ "") :
    ∀ (fuel : Nat) (attempt : Int) (st : SendState),
      (tryAttempts env ctx fcfg key attempt fuel st).1 = true →
      (tryAttempts env ctx fcfg key attempt fuel st).2.2.dedup.contains key = true := by
  intro fuel
  induction fuel with
  | zero => intro attempt st h; simp [tryAttempts] at h
  | succ n ih =>
    intro attempt st h
    simp only [tryAttempts] at h ⊢
    cases herr : attemptOutcome env fcfg attempt with
    | none =>
      exact markDedupKey_contains key _ hkey
    | some e =>
      rw [herr] at h
      rcases htry : tryAttempts env ctx fcfg key (attempt + 1) n
          (afterAttempt env ctx fcfg attempt (some e) st) with ⟨ok, e?, st'⟩
      rw [htry] at h
      cases ok with
      | true =>
        have := ih (attempt + 1) (afterAttempt env ctx fcfg attempt (some e) st)
          (by rw [htry])
        rw [htry] at this
        cases e? <;> simpa using this
      | false => cases e? <;> simp at h
/-- Helper: with at least one attempt of fuel, a failed retry loop reports
some error. -/
theorem tryAttempts_false_some (env : SendEnv) (ctx : Option SendContext)
    (fcfg : EmailConfig) (key : String) (fuel : Nat) (attempt : Int)
    (st : SendState) (hfuel : 1 ≤ fuel)
    (h : (tryAttempts env ctx fcfg key attempt fuel st).1 = false) :
    (tryAttempts env ctx fcfg key attempt fuel st).2.1.isSome = true := by
  cases fuel with
  | zero => omega
  | succ n =>
    simp only [tryAttempts] at h ⊢
    cases herr : attemptOutcome env fcfg attempt with
    | none => rw [herr] at h; simp at h
    | some e =>
      rw [herr] at h
      rcases htry : tryAttempts env ctx fcfg key (attempt + 1) n
          (afterAttempt env ctx fcfg attempt (some e) st) with ⟨ok, e?, st'⟩
      rw [htry] at h
      cases ok with
      | true => simp at h
      | false => cases e? <;> simp

/-- Helper: a successful `finalizeConfig` clamps the retry count to at
least one. -/
theorem finalizeConfig_retry (env : SendEnv) (c c' : EmailConfig)
    (h : finalizeConfig env c = .ok c') : 1 ≤ c'.RetryCount := by
  unfold finalizeConfig at h
  cases hrest : env.finalizeRest c with
  | error e => rw [hrest] at h; cases h
  | ok c0 =>
    rw [hrest] at h
    obtain rfl := Except.ok.inj h
    simp only []
    split_ifs with hrc
    · omega
    · omega

/-- Helper: a provider loop that returns `nil` either ran over no providers
with no recorded error, or delivered and marked the (non-empty) dedup key. -/
theorem providerLoop_ok_marks (env : SendEnv) (ctx : Option SendContext)
    (pcfg : EmailConfig) (key : String) (hkey : key ≠ "") :
    ∀ (provs : List String) (lastErr : Option String) (st : SendState),
      (providerLoop env ctx pcfg key provs lastErr st).1 = .ok () →
      (provs = [] ∧ lastErr = none) ∨
      (providerLoop env ctx pcfg key provs lastErr st).2.dedup.contains key = true := by
  intro provs
  induction provs with
  | nil =>
    intro lastErr st h
    cases lastErr with
    | none => exact Or.inl ⟨rfl, rfl⟩
    | some e => simp [providerLoop] at h
  | cons prov rest ih =>
    intro lastErr st h
    simp only [providerLoop] at h ⊢
    cases hfin : finalizeConfig env { pcfg with Provider := prov } with
    | error e =>
      rw [hfin] at h
      dsimp only at h ⊢
      rcases ih (some e) st h with ⟨_, habs⟩ | hmark
      · cases habs
      · exact Or.inr hmark
    | ok fcfg =>
      rw [hfin] at h
      dsimp only at h ⊢
      rcases htry : tryAttempts env ctx fcfg key 1 fcfg.RetryCount.toNat st
        with ⟨ok, e?, st'⟩
      rw [htry] at h
      cases ok with
      | true =>
        have hm := tryAttempts_true_marks env ctx fcfg key hkey
          fcfg.RetryCount.toNat 1 st (by rw [htry])
        rw [htry] at hm
        dsimp only at hm ⊢
        exact Or.inr hm
      | false =>
        dsimp only at h ⊢
        have hfuel : 1 ≤ fcfg.RetryCount.toNat := by
          have := finalizeConfig_retry env _ _ hfin
          omega
        have hsome := tryAttempts_false_some env ctx fcfg key
          fcfg.RetryCount.toNat 1 st hfuel (by rw [htry])
        rw [htry] at hsome
        cases e? with
        | none => simp at hsome
        | some e =>
          dsimp only at h ⊢
          rcases ih (some e) st' h with ⟨_, habs⟩ | hmark
          · cases habs
          · exact Or.inr hmark
/-- Helper: the dedup key is non-empty when the normalized schedule mode is
neither empty nor `repeat`. -/
theorem dedupKey_ne_of_mode (sha : String → String) (cfg : EmailConfig)
    (ctx : Option SendContext)
    (h1 : goToLower (goTrimSpace cfg.ScheduleMode) ≠ "")
    (h2 : goToLower (goTrimSpace cfg.ScheduleMode) ≠ "repeat") :
    dedupKeyFromConfig sha cfg ctx ≠ "" := by
  simp only [dedupKeyFromConfig]
  rw [if_neg (by tauto)]
  exact pipe_concat_ne_empty _ _ _ _

/-- C3 (amended: the schedule mode must be, after normalization, neither
empty nor `repeat`, and the message must not be a dry run): if `sendEmail`
returns ok, an immediately repeated `sendEmail` of the same message returns
the `errDeduplicated` outcome and leaves the whole state — dedup store, send
log, and provider-contact trace — unchanged: nothing is appended and no
provider is contacted. -/
theorem c3_send_idempotent (env : SendEnv) (cfg : EmailConfig)
    (ctx : Option SendContext) (st : SendState) (pcfg : EmailConfig)
    (hprep : env.prepare cfg = .ok pcfg)
    (hdry : pcfg.DryRun = false)
    (hmode1 : goToLower (goTrimSpace pcfg.ScheduleMode) ≠ "")
    (hmode2 : goToLower (goTrimSpace pcfg.ScheduleMode) ≠ "repeat")
    (hok : (sendEmail env cfg ctx st).1 = .ok ()) :
    (sendEmail env cfg ctx (sendEmail env cfg ctx st).2).1 = .error .deduplicated ∧
    (sendEmail env cfg ctx (sendEmail env cfg ctx st).2).2 = (sendEmail env cfg ctx st).2 := by
  have hkey : dedupKeyFromConfig env.sha pcfg ctx ≠ "" :=
    dedupKey_ne_of_mode env.sha pcfg ctx hmode1 hmode2
  set key := dedupKeyFromConfig env.sha pcfg ctx with hkeydef
  have hnotex : ¬ (key ≠ "" ∧ dedupKeyExists st key = true) := by
    intro hex
    rw [show (sendEmail env cfg ctx st) =
        (.error .deduplicated, st) by simp only [sendEmail, hprep]; rw [if_pos hex]] at hok
    cases hok
  have hfirst : sendEmail env cfg ctx st =
      providerLoop env ctx pcfg key (resolveProviders env.route pcfg) none st := by
    simp only [sendEmail, hprep]
    rw [if_neg hnotex, if_neg (by rw [hdry]; exact Bool.false_ne_true)]
  have hprovs : resolveProviders env.route pcfg ≠ [] := by
    obtain ⟨base, hb⟩ := resolveProviders_eq env.route pcfg
    rw [hb]
    exact (normalizeProviderList_props base pcfg.Provider).1
  rw [hfirst] at hok
  rcases providerLoop_ok_marks env ctx pcfg key hkey
      (resolveProviders env.route pcfg) none st hok with ⟨habs, _⟩ | hmark
  · exact absurd habs hprovs
  · set st1 := (sendEmail env cfg ctx st).2 with hst1
    have hex2 : dedupKeyExists st1 key = true := by
      rw [hst1, hfirst]
      unfold dedupKeyExists
      rw [if_neg hkey]
      exact hmark
    have hsecond : sendEmail env cfg ctx st1 = (.error .deduplicated, st1) := by
      simp only [sendEmail, hprep]
      rw [if_pos ⟨hkey, hex2⟩]
    rw [hsecond]
    exact ⟨rfl, rfl⟩
set_option maxRecDepth 8000 in
/-- C3 witness: a concrete one-shot message delivered once is skipped as a
duplicate on the immediate retry, with the state untouched. -/
theorem c3_witness :
    (sendEmail trivSendEnv { ScheduleMode := "once", To := ["u@x"], Provider := "p" } none
      ((sendEmail trivSendEnv { ScheduleMode := "once", To := ["u@x"], Provider := "p" }
        none {}).2)).1 = .error .deduplicated ∧
    (sendEmail trivSendEnv { ScheduleMode := "once", To := ["u@x"], Provider := "p" } none
      ((sendEmail trivSendEnv { ScheduleMode := "once", To := ["u@x"], Provider := "p" }
        none {}).2)).2 =
      (sendEmail trivSendEnv { ScheduleMode := "once", To := ["u@x"], Provider := "p" }
        none {}).2 :=
  c3_send_idempotent trivSendEnv
    { ScheduleMode := "once", To := ["u@x"], Provider := "p" } none {}
    { ScheduleMode := "once", To := ["u@x"], Provider := "p" }
    rfl rfl (by decide) (by decide) (by rfl)

set_option maxRecDepth 8000 in
/-- C3 counterexample to the claim as stated: a dry-run message returns ok
twice (no dedup key is ever marked), and a message with an empty schedule
mode (which is ≠ `repeat`) is also delivered twice, appending a send-log
entry both times. -/
theorem c3_counterexample :
    (sendEmail trivSendEnv
      { ScheduleMode := "once", To := ["u@x"], Provider := "p", DryRun := true } none
      {}).1 = .ok () ∧
    (sendEmail trivSendEnv
      { ScheduleMode := "once", To := ["u@x"], Provider := "p", DryRun := true } none
      ((sendEmail trivSendEnv
        { ScheduleMode := "once", To := ["u@x"], Provider := "p", DryRun := true } none
        {}).2)).1 = .ok () ∧
    (sendEmail trivSendEnv { ScheduleMode := "", To := ["u@x"], Provider := "p" } none
      {}).1 = .ok () ∧
    (sendEmail trivSendEnv { ScheduleMode := "", To := ["u@x"], Provider := "p" } none
      ((sendEmail trivSendEnv { ScheduleMode := "", To := ["u@x"], Provider := "p" } none
        {}).2)).1 = .ok () ∧
    ((sendEmail trivSendEnv { ScheduleMode := "", To := ["u@x"], Provider := "p" } none
      ((sendEmail trivSendEnv { ScheduleMode := "", To := ["u@x"], Provider := "p" } none
        {}).2)).2).sendLog.length = 2 := by
  refine ⟨by rfl, by rfl, by rfl, by rfl, by rfl⟩
/-- C8: for a due job whose metadata requires the previous job's success and
names a predecessor: if the predecessor's recorded result is not `success`,
the worker records `skipped` (when skip_ahead) or `blocked` (otherwise) for
the job and deletes it, contacting neither the dispatcher nor any provider;
if no result is recorded yet, the whole state is left unchanged for the
next tick. -/
theorem c8_dependency_gate (env : SchedEnv) (st : SchedulerState)
    (job : ScheduledEmail)
    (hreq : (buildSendContext job).RequireLastSuccess = true)
    (hprev : (buildSendContext job).PrevJobID ≠ "")
    (hid : job.ID ≠ "") :
    (∀ res, getJobResult (buildSendContext job).PrevJobID st = some res →
      res ≠ JobResult.success →
      processDueJob env st job =
        { st with
          results := mapSet st.results job.ID
            (if (buildSendContext job).SkipAhead then JobResult.skipped
             else JobResult.blocked)
          jobs := storeDelete st.jobs job.ID }) ∧
    (getJobResult (buildSendContext job).PrevJobID st = none →
      processDueJob env st job = st) := by
  constructor
  · intro res hres hfail
    unfold processDueJob
    rw [if_pos ⟨hreq, hprev⟩, hres]
    dsimp only
    rw [if_pos hfail]
    unfold handleDependencyFailure recordJobResult
    simp only [if_neg hid]
  · intro hres
    unfold processDueJob
    rw [if_pos ⟨hreq, hprev⟩, hres]

/-- C8 witness: a concrete blocked job — predecessor failed, no skip_ahead —
is recorded `blocked` and deleted, with send state and dispatch trace
untouched. -/
theorem c8_witness :
    processDueJob trivSchedEnv { results := [("j0", JobResult.failed)] }
      { ID := "j1",
        Meta := [("require_last_success", GoVal.boolv true), ("prev_job_id", GoVal.str "j0")] } =
      { results := mapSet [("j0", JobResult.failed)] "j1"
          (if (buildSendContext
                { ID := "j1",
                  Meta := [("require_last_success", GoVal.boolv true),
                    ("prev_job_id", GoVal.str "j0")] }).SkipAhead
           then JobResult.skipped else JobResult.blocked)
        jobs := storeDelete [] "j1" } :=
  (c8_dependency_gate trivSchedEnv { results := [("j0", JobResult.failed)] }
      { ID := "j1",
        Meta := [("require_last_success", GoVal.boolv true), ("prev_job_id", GoVal.str "j0")] }
      (by decide) (by decide) (by decide)).1
    JobResult.failed rfl (by decide)
/-- Helper: reading the key just written into a Go map. -/
theorem mapLookup_mapSet_same {α : Type} (m : List (String × α)) (k : String) (v : α) :
    mapLookup (mapSet m k v) k = some v := by
  induction m with
  | nil => simp [mapSet, mapLookup]
  | cons e rest ih =>
    by_cases h : e.1 = k
    · simp [mapSet, h, mapLookup]
    · simp only [mapSet, if_neg h]
      simpa [mapLookup, List.find?_cons, h] using ih

/-- Helper: writing one key of a Go map leaves the other keys unchanged. -/
theorem mapLookup_mapSet_ne {α : Type} (m : List (String × α)) (k k' : String)
    (v : α) (h : k' ≠ k) : mapLookup (mapSet m k' v) k = mapLookup m k := by
  induction m with
  | nil => simp [mapSet, mapLookup, List.find?, h]
  | cons e rest ih =>
    simp only [mapSet]
    split_ifs with he
    · subst he
      simp [mapLookup, List.find?_cons, h]
    · by_cases hek : e.1 = k
      · simp [mapLookup, List.find?_cons, hek]
      · simp only [mapLookup, List.find?_cons] at ih ⊢
        simp [hek, ih]

example : ("skip_ahead" : String) ≠ "prev_job_id" := by simp
/-- Helper: with a non-empty previous job id, the step metadata carries it
under `prev_job_id`. -/
theorem stepMeta_prev (m : List (String × GoVal)) (i : Nat) (last : String)
    (hlast : last ≠ "") :
    mapLookup (stepMeta m i last) "prev_job_id" = some (.str last) := by
  simp only [stepMeta, if_pos hlast]
  repeat' split
  all_goals
    simp_all [mapLookup_mapSet_same, mapLookup_mapSet_ne]

/-- Helper: a step with a non-empty previous job id and no explicit
`require_last_success` gets it defaulted to `true`, and `skip_ahead`
defaulted to `false` when not explicitly set. -/
theorem stepMeta_require (m : List (String × GoVal)) (i : Nat) (last : String)
    (hnone : mapLookup m "require_last_success" = none) (hlast : last ≠ "") :
    mapLookup (stepMeta m i last) "require_last_success" = some (.boolv true) ∧
    (mapLookup m "skip_ahead" = none →
      mapLookup (stepMeta m i last) "skip_ahead" = some (.boolv false)) := by
  constructor
  · simp only [stepMeta, if_pos hlast, hnone]
    repeat' split
    all_goals
      simp_all [mapLookup_mapSet_same, mapLookup_mapSet_ne]
  · intro hs
    simp only [stepMeta, if_pos hlast, hnone, hs]
    repeat' split
    all_goals
      simp_all [mapLookup_mapSet_same, mapLookup_mapSet_ne]
/-- Helper: the step loop of `ScheduleGenericWorkflow` over well-formed
(object) steps succeeds, appends one job per step, and chains each job's
`prev_job_id` to the previous job's id, defaulting `require_last_success`
and `skip_ahead` on dependent steps. -/
theorem workflowSteps_spec (env : SchedEnv) (base : EmailConfig)
    (hids : ∀ n, env.genId n ≠ "") :
    ∀ (steps : List GoVal) (i : Nat) (last : String) (st : SchedulerState),
      (∀ s ∈ steps, ∃ m, s = GoVal.obj m) →
      ∃ newJobs,
        (workflowSteps env base steps i last st).1 = .ok () ∧
        (workflowSteps env base steps i last st).2.jobs = st.jobs ++ newJobs ∧
        newJobs.length = steps.length ∧
        (∀ j ∈ newJobs, j.ID ≠ "") ∧
        (∀ j, newJobs.get? 0 = some j → last ≠ "" →
          mapLookup j.Meta "prev_job_id" = some (.str last)) ∧
        (∀ k j1 j2, newJobs.get? k = some j1 → newJobs.get? (k + 1) = some j2 →
          mapLookup j2.Meta "prev_job_id" = some (.str j1.ID)) ∧
        (∀ k mk j, steps.get? k = some (.obj mk) → newJobs.get? k = some j →
          (1 ≤ k ∨ last ≠ "") →
          mapLookup mk "require_last_success" = none →
          mapLookup j.Meta "require_last_success" = some (.boolv true) ∧
          (mapLookup mk "skip_ahead" = none →
            mapLookup j.Meta "skip_ahead" = some (.boolv false))) := by
  intro steps
  induction steps with
  | nil =>
    intro i last st _
    refine ⟨[], rfl, by simp [workflowSteps], rfl, by simp, ?_, ?_, ?_⟩
    · intro j hj
      simp at hj
    · intro k j1 j2 h1
      simp at h1
    · intro k mk j h1
      simp at h1
  | cons s rest ih =>
    intro i last st hobj
    obtain ⟨m, rfl⟩ := hobj s (List.mem_cons_self _ _)
    simp only [workflowSteps]
    rcases hstep : workflowStep env base i last m st with ⟨job, st'⟩
    have h1 : (workflowStep env base i last m st).1 = job := by rw [hstep]
    have h2 : (workflowStep env base i last m st).2 = st' := by rw [hstep]
    have hjobid : job.ID = env.genId st.counter := by rw [← h1]; rfl
    have hjobmeta : job.Meta = stepMeta m i last := by rw [← h1]; rfl
    have hstjobs : st'.jobs = st.jobs ++ [job] := by rw [← h2, ← h1]; rfl
    have hjobne : job.ID ≠ "" := by rw [hjobid]; exact hids st.counter
    obtain ⟨newJobs', hok', hjobs', hlen', hids', hhd', hchain', hdef'⟩ :=
      ih (i + 1) job.ID st' (fun q hq => hobj q (List.mem_cons_of_mem _ hq))
    refine ⟨job :: newJobs', hok', ?_, by simp [hlen'], ?_, ?_, ?_, ?_⟩
    · rw [hjobs', hstjobs]
      simp
    · intro j hj
      rcases List.mem_cons.1 hj with rfl | hj
      · exact hjobne
      · exact hids' j hj
    · intro j h0 hlast
      obtain rfl : job = j := Option.some.inj h0
      rw [hjobmeta]
      exact stepMeta_prev m i last hlast
    · intro k j1 j2 hk hk1
      cases k with
      | zero =>
        obtain rfl : job = j1 := Option.some.inj hk
        rw [List.get?_cons_succ] at hk1
        exact hhd' j2 hk1 hjobne
      | succ k =>
        rw [List.get?_cons_succ] at hk hk1
        exact hchain' k j1 j2 hk hk1
    · intro k mk j hsk hjk hcond hnone
      cases k with
      | zero =>
        rw [List.get?_cons_zero] at hsk hjk
        obtain rfl : job = j := Option.some.inj hjk
        have hm : m = mk := by
          have := Option.some.inj hsk
          exact (GoVal.obj.inj this)
        subst hm
        have hlast : last ≠ "" := by
          rcases hcond with h | h
          · omega
          · exact h
        rw [hjobmeta]
        exact stepMeta_require m i last hnone hlast
      | succ k =>
        rw [List.get?_cons_succ] at hsk hjk
        exact hdef' k mk j hsk hjk (Or.inr hjobne) hnone
/-- C7: scheduling a workflow of N well-formed steps adds exactly N jobs to
the store; every job after the first carries `prev_job_id` equal to the id
of the job created for the previous step; and for steps after index 0,
`require_last_success` defaults to true (when not explicitly set) with
`skip_ahead` defaulting to false.  (`genId` yields the non-empty ids
`randomBoundary` always produces.) -/
theorem c7_schedule_generic_workflow (env : SchedEnv) (base : EmailConfig)
    (steps : List GoVal) (st : SchedulerState)
    (hobj : ∀ s ∈ steps, ∃ m, s = GoVal.obj m)
    (hids : ∀ n, env.genId n ≠ "") :
    (ScheduleGenericWorkflow env base (.arr steps) st).1 = .ok () ∧
    (ScheduleGenericWorkflow env base (.arr steps) st).2.jobs.length =
      st.jobs.length + steps.length ∧
    (∀ k j1 j2,
      ((ScheduleGenericWorkflow env base (.arr steps) st).2.jobs.drop
        st.jobs.length).get? k = some j1 →
      ((ScheduleGenericWorkflow env base (.arr steps) st).2.jobs.drop
        st.jobs.length).get? (k + 1) = some j2 →
      mapLookup j2.Meta "prev_job_id" = some (.str j1.ID)) ∧
    (∀ k mk j, steps.get? k = some (.obj mk) →
      ((ScheduleGenericWorkflow env base (.arr steps) st).2.jobs.drop
        st.jobs.length).get? k = some j →
      1 ≤ k →
      mapLookup mk "require_last_success" = none →
      mapLookup j.Meta "require_last_success" = some (.boolv true) ∧
      (mapLookup mk "skip_ahead" = none →
        mapLookup j.Meta "skip_ahead" = some (.boolv false))) := by
  obtain ⟨newJobs, hok, hjobs, hlen, _, _, hchain, hdef⟩ :=
    workflowSteps_spec env base hids steps 0 "" st hobj
  have hW : ScheduleGenericWorkflow env base (.arr steps) st =
      workflowSteps env base steps 0 "" st := rfl
  rw [hW, hjobs]
  rw [List.drop_left]
  refine ⟨hok, by simp [hlen], hchain, ?_⟩
  intro k mk j hsk hjk hk hnone
  exact hdef k mk j hsk hjk (Or.inl hk) hnone

/-- C7 witness: a concrete two-step workflow schedules exactly two jobs. -/
theorem c7_witness :
    (ScheduleGenericWorkflow trivSchedEnv {} (.arr [.obj [], .obj []]) {}).1 = .ok () ∧
    (ScheduleGenericWorkflow trivSchedEnv {} (.arr [.obj [], .obj []]) {}).2.jobs.length =
      ([] : List ScheduledEmail).length + 2 := by
  obtain ⟨h1, h2, _⟩ :=
    c7_schedule_generic_workflow trivSchedEnv {} [.obj [], .obj []] {}
      (by
        intro s hs
        refine ⟨[], ?_⟩
        rcases List.mem_cons.1 hs with rfl | hs2
        · rfl
        · rcases List.mem_cons.1 hs2 with rfl | h3
          · rfl
          · simp at h3)
      (by
        intro n h
        have hl := congrArg String.length h
        have h4 : ("job-" : String).length = 4 := rfl
        have h0 : ("" : String).length = 0 := rfl
        simp only [trivSchedEnv, String.length_append, h4, h0] at hl
        omega)
  exact ⟨h1, h2⟩
/-- Helper: an eligible entry of the optimizer's remaining-capacity map is
positive (unlimited entries are the `1 <<< 30` sentinel). -/
theorem remCapFor_pos (pd : List (String × ProviderSetting))
    (route : Option ProviderRoute) (counts : List (String × Int)) (prov : String)
    (r : Int) (h : remCapFor pd route counts prov = some r) : 0 < r := by
  simp only [remCapFor] at h
  split_ifs at h <;>
    first
      | (obtain rfl := Option.some.inj h; positivity)
      | (obtain rfl := Option.some.inj h; omega)
      | cases h

/-- Helper: `remLookup` is positive exactly on eligible providers. -/
theorem remLookup_pos_iff (pd : List (String × ProviderSetting))
    (route : Option ProviderRoute) (counts : List (String × Int)) (prov : String) :
    0 < remLookup pd route counts prov ↔
      (remCapFor pd route counts prov).isSome = true := by
  unfold remLookup
  cases h : remCapFor pd route counts prov with
  | some r => simpa using remCapFor_pos pd route counts prov r h
  | none => simp

/-- Helper: membership is invariant under the `sort.Slice` model. -/
theorem mem_sortSlice (le : JobWrap → JobWrap → Bool) :
    ∀ (l : List JobWrap) (w : JobWrap), w ∈ sortSlice le l ↔ w ∈ l := by
  have hins : ∀ (x : JobWrap) (l : List JobWrap) (w : JobWrap),
      w ∈ sortInsert le x l ↔ w ∈ x :: l := by
    intro x l
    induction l with
    | nil => intro w; simp [sortInsert]
    | cons y ys ih =>
      intro w
      simp only [sortInsert]
      split_ifs
      · rfl
      · rw [List.mem_cons, ih w]
        simp [List.mem_cons]
        tauto
  intro l
  induction l with
  | nil => intro w; simp [sortSlice]
  | cons x xs ih =>
    intro w
    rw [sortSlice, hins x (sortSlice le xs) w, List.mem_cons, ih w, List.mem_cons]

/-- Helper: the allocation step either skips a candidate-less job or assigns
the highest-ranked candidate with remaining capacity, falling back to the
first candidate, and increments the chosen provider's batch count. -/
theorem allocStep_spec (pd : List (String × ProviderSetting)) (env : RouteEnv)
    (st : AllocSt) (w : JobWrap) :
    (w.cands = [] → allocStep pd env st w = st) ∧
    (∀ c0 cs, w.cands = c0 :: cs →
      allocStep pd env st w =
        (let chosen :=
          match w.cands.find? (fun p =>
            0 < remLookup pd (findFirstMatchingRoute env w.job.Config) st.counts p) with
          | some p => p
          | none => c0
         { assign := mapSet st.assign w.job.ID chosen
           counts := mapSet st.counts chosen (countOf st.counts chosen + 1) })) := by
  constructor
  · intro h
    simp only [allocStep]
    rw [h]
    rfl
  · intro c0 cs hc
    simp only [allocStep]
    rw [hc]
    cases helig : (c0 :: cs).filter
        (fun p => (remCapFor pd (findFirstMatchingRoute env w.job.Config) st.counts p).isSome) with
    | nil =>
      have hall : ∀ p ∈ c0 :: cs,
          ¬ (remCapFor pd (findFirstMatchingRoute env w.job.Config) st.counts p).isSome = true := by
        intro p hp
        exact (List.filter_eq_nil_iff.1 helig) p hp
      have hfind : (c0 :: cs).find? (fun p =>
          0 < remLookup pd (findFirstMatchingRoute env w.job.Config) st.counts p) = none := by
        rw [List.find?_eq_none]
        intro p hp
        simp only [decide_eq_true_eq]
        rw [remLookup_pos_iff]
        exact hall p hp
      rw [hfind]
    | cons e0 erest =>
      have he0 : (remCapFor pd (findFirstMatchingRoute env w.job.Config) st.counts e0).isSome = true ∧
          e0 ∈ c0 :: cs := by
        have : e0 ∈ (c0 :: cs).filter
            (fun p => (remCapFor pd (findFirstMatchingRoute env w.job.Config) st.counts p).isSome) := by
          rw [helig]; exact List.mem_cons_self _ _
        rw [List.mem_filter] at this
        exact ⟨this.2, this.1⟩
      cases hfind : (c0 :: cs).find? (fun p =>
          0 < remLookup pd (findFirstMatchingRoute env w.job.Config) st.counts p) with
      | some p => rfl
      | none =>
        exfalso
        rw [List.find?_eq_none] at hfind
        have := hfind e0 he0.2
        simp only [decide_eq_true_eq] at this
        rw [remLookup_pos_iff] at this
        exact this he0.1
/-- Helper: the allocation fold never unassigns a job. -/
theorem foldl_allocStep_preserves (pd : List (String × ProviderSetting))
    (env : RouteEnv) :
    ∀ (ws : List JobWrap) (st : AllocSt) (id : String),
      mapLookup st.assign id ≠ none →
      mapLookup ((ws.foldl (allocStep pd env) st).assign) id ≠ none := by
  intro ws
  induction ws with
  | nil => intro st id h; exact h
  | cons w rest ih =>
    intro st id h
    rw [List.foldl_cons]
    refine ih (allocStep pd env st w) id ?_
    obtain ⟨hnil, hcons⟩ := allocStep_spec pd env st w
    cases hc : w.cands with
    | nil => rw [hnil hc]; exact h
    | cons c0 cs =>
      rw [hcons c0 cs hc]
      by_cases hid : w.job.ID = id
      · subst hid
        simp [mapLookup_mapSet_same]
      · simpa [mapLookup_mapSet_ne _ _ _ _ hid] using h

/-- Helper: every wrapped job with candidates ends the allocation fold
assigned. -/
theorem foldl_allocStep_assigns (pd : List (String × ProviderSetting))
    (env : RouteEnv) :
    ∀ (ws : List JobWrap) (st : AllocSt) (w : JobWrap), w ∈ ws → w.cands ≠ [] →
      mapLookup ((ws.foldl (allocStep pd env) st).assign) w.job.ID ≠ none := by
  intro ws
  induction ws with
  | nil => intro st w h; simp at h
  | cons w' rest ih =>
    intro st w hmem hcands
    rw [List.foldl_cons]
    rcases List.mem_cons.1 hmem with rfl | hmem'
    · refine foldl_allocStep_preserves pd env rest (allocStep pd env st w) w.job.ID ?_
      obtain ⟨_, hcons⟩ := allocStep_spec pd env st w
      cases hc : w.cands with
      | nil => exact absurd hc hcands
      | cons c0 cs =>
        rw [hcons c0 cs hc]
        simp [mapLookup_mapSet_same]
    · exact ih (allocStep pd env st w') w hmem' hcands

/-- C9 (amended): every job whose derived candidate list is non-empty is
assigned exactly one provider; the per-job choice walks the ordered
candidates and picks the highest-ranked one with positive remaining
per-batch capacity (route override if positive, else positive provider
default, else unlimited), decrementing that provider's remaining capacity;
when no candidate has remaining capacity the job falls back to its FIRST
candidate (not the largest-remaining/cheapest — that branch of the Go code
is unreachable), and a job with no candidates is left unassigned. -/
theorem c9_allocate_jobs (pd : List (String × ProviderSetting)) (env : RouteEnv)
    (jobs : List ScheduledEmail) :
    (∀ j ∈ jobs, candsOf env j ≠ [] →
      mapLookup (AllocateJobs pd env jobs) j.ID ≠ none) ∧
    (∀ (st : AllocSt) (w : JobWrap) (c0 : String) (cs : List String),
      w.cands = c0 :: cs →
      allocStep pd env st w =
        (let chosen :=
          match w.cands.find? (fun p =>
            0 < remLookup pd (findFirstMatchingRoute env w.job.Config) st.counts p) with
          | some p => p
          | none => c0
         { assign := mapSet st.assign w.job.ID chosen
           counts := mapSet st.counts chosen (countOf st.counts chosen + 1) })) ∧
    (∀ (st : AllocSt) (w : JobWrap), w.cands = [] → allocStep pd env st w = st) := by
  refine ⟨?_, fun st w c0 cs hc => (allocStep_spec pd env st w).2 c0 cs hc,
    fun st w hc => (allocStep_spec pd env st w).1 hc⟩
  intro j hj hcands
  have hw : JobWrap.mk j (candsOf env j) ∈
      sortSlice wrapLe (jobs.map (fun j => JobWrap.mk j (candsOf env j))) := by
    rw [mem_sortSlice]
    exact List.mem_map_of_mem _ hj
  have := foldl_allocStep_assigns pd env
    (sortSlice wrapLe (jobs.map (fun j => JobWrap.mk j (candsOf env j)))) {}
    (JobWrap.mk j (candsOf env j)) hw hcands
  exact this
set_option maxRecDepth 8000 in
/-- C9 counterexample to the claim as stated: with per-batch capacity 1 for
both providers (`a` costing 5, `b` costing 1) and four jobs, the
candidate-less job `j0` receives NO provider (the claim says every job
receives exactly one), and the over-capacity job `j3` receives its first
candidate `a`, not the cheaper equal-remaining-capacity `b` that the
claim's largest-capacity/lower-cost rule would pick. -/
theorem c9_counterexample :
    AllocateJobs [("a", { Capacity := 1, Cost := 5 }), ("b", { Capacity := 1, Cost := 1 })]
        trivRouteEnv
        [{ ID := "j0" },
         { ID := "j1", Config := { ProviderPriority := ["a", "b"] } },
         { ID := "j2", Config := { ProviderPriority := ["a", "b"] } },
         { ID := "j3", Config := { ProviderPriority := ["a", "b"] } }] =
      [("j1", "a"), ("j2", "b"), ("j3", "a")] ∧
    mapLookup
      (AllocateJobs [("a", { Capacity := 1, Cost := 5 }), ("b", { Capacity := 1, Cost := 1 })]
        trivRouteEnv
        [{ ID := "j0" },
         { ID := "j1", Config := { ProviderPriority := ["a", "b"] } },
         { ID := "j2", Config := { ProviderPriority := ["a", "b"] } },
         { ID := "j3", Config := { ProviderPriority := ["a", "b"] } }]) "j0" = none := by
  exact ⟨by decide, by decide⟩

/-- C9 witness: a concrete one-job batch gets its provider assigned. -/
theorem c9_witness :
    mapLookup
      (AllocateJobs [("a", { Capacity := 1, Cost := 5 })] trivRouteEnv
        [{ ID := "j1", Config := { ProviderPriority := ["a", "b"] } }]) "j1" ≠ none :=
  (c9_allocate_jobs [("a", { Capacity := 1, Cost := 5 })] trivRouteEnv
      [{ ID := "j1", Config := { ProviderPriority := ["a", "b"] } }]).1
    { ID := "j1", Config := { ProviderPriority := ["a", "b"] } }
    (List.mem_singleton.mpr rfl) (by decide)
